import Mathlib

set_option maxHeartbeats 1000000
set_option maxRecDepth 8000

/-
Verification development for the PicoScheme interpreter sources
(number.hpp, streamop.cpp, primop.cpp, parser.cpp, port.hpp).
C++ `double` is modelled by `Rat` (the code under scrutiny only tests
sign/equality of scalars, never rounding), `int64_t` by `Int`.
-/

namespace PicoScm

/-- Stand-in for the C++ `double` (`Float` in number.hpp). -/
abbrev Flo := Rat

/-- Number: std::variant<Int, Float, Complex> (number.hpp line 68). -/
inductive Number where
  | int (z : Int)
  | real (x : Flo)
  | cpx (re im : Flo)
deriving DecidableEq

/-- A C++ scalar constructor argument: either of an integral type or of a
floating-point type (the RE/IM template parameters of number.hpp). -/
inductive CScalar where
  | i (z : Int)
  | f (x : Flo)
deriving DecidableEq

/-- Numeric value of a scalar. -/
def CScalar.val : CScalar → Rat
  | .i z => (z : Rat)
  | .f x => x

/-- static_cast<Float>(scalar). -/
def CScalar.toFlo (s : CScalar) : Flo := s.val

/-- One-argument Number constructors (number.hpp lines 81-90):
`Number(T x)` for integral `T` stores `Int`, `Number(Float x)` stores `Float`. -/
def numberOfScalar : CScalar → Number
  | .i z => .int z
  | .f x => .real x

/-- Two-argument constructor `Number(RE x, IM y)` (number.hpp lines 99-106):
`if (y > IM{0} || y < IM{0})` store `Complex{x, y}`, else delegate to `Number{x}`. -/
def numberOfParts (x y : CScalar) : Number :=
  if 0 < y.val ∨ y.val < 0 then .cpx x.toFlo y.toFlo else numberOfScalar x

/-- Converting constructor `Number(const Complex& z) : Number{z.real(), z.imag()}`
(number.hpp lines 94-97). -/
def numberOfComplex (re im : Flo) : Number := numberOfParts (.f re) (.f im)

/-- Truncation toward zero of a rational (num/den in integer division,
which truncates toward zero). -/
def ratTrunc (q : Rat) : Int := q.num / (q.den : Int)

/-- Modelled from the spec: `Number trunc(const Number&)` is declared in
number.hpp (line 247) but its definition (numeric.cpp) is not among the
sources.  Spec section 3.2: the explicit `#e`/`exact`/`trunc` coercions
truncate toward zero, coercing Real to Int.  Complex is left unchanged
(the spec does not define truncation of a complex). -/
def truncNum : Number → Number
  | .int z => .int z
  | .real x => .int (ratTrunc x)
  | .cpx a b => .cpx a b

/-- Real and imaginary components of a Number, promoted to rationals. -/
def Number.reim : Number → Rat × Rat
  | .int z => ((z : Rat), 0)
  | .real x => (x, 0)
  | .cpx a b => (a, b)

/-- Modelled from the spec: `Number operator+` (numeric.cpp is not among the
sources).  Spec section 3.2: cross-type operations promote to the wider
domain; a Complex result with zero imaginary part normalizes to its real
component via the converting constructor. -/
def nAdd : Number → Number → Number
  | .int a, .int b => .int (a + b)
  | .cpx a b, y => numberOfComplex (a + y.reim.1) (b + y.reim.2)
  | x, .cpx c d => numberOfComplex (x.reim.1 + c) (x.reim.2 + d)
  | x, y => .real (x.reim.1 + y.reim.1)

/-- Modelled from the spec: `Number operator-` (binary), as `nAdd`. -/
def nSub : Number → Number → Number
  | .int a, .int b => .int (a - b)
  | .cpx a b, y => numberOfComplex (a - y.reim.1) (b - y.reim.2)
  | x, .cpx c d => numberOfComplex (x.reim.1 - c) (x.reim.2 - d)
  | x, y => .real (x.reim.1 - y.reim.1)

/-- Modelled from the spec: `Number operator*`, as `nAdd`. -/
def nMul : Number → Number → Number
  | .int a, .int b => .int (a * b)
  | x, y =>
    match x, y with
    | .cpx _ _, _ | _, .cpx _ _ =>
      let (a, b) := x.reim
      let (c, d) := y.reim
      numberOfComplex (a * c - b * d) (a * d + b * c)
    | _, _ => .real (x.reim.1 * y.reim.1)

/-- Modelled from the spec: `Number operator/`.  Spec scenario 1 shows
`(/ 10 2 2)` evaluating to Real `2.5`, so division always leaves the
integer domain; complex division by the conjugate formula.  (Division by
zero raises arithmetic_error in the code; `Rat` division by zero yields 0
here — no theorem below depends on that corner.) -/
def nDiv : Number → Number → Number
  | x, y =>
    match x, y with
    | .cpx _ _, _ | _, .cpx _ _ =>
      let (a, b) := x.reim
      let (c, d) := y.reim
      let m := c * c + d * d
      numberOfComplex ((a * c + b * d) / m) ((b * c - a * d) / m)
    | _, _ => .real (x.reim.1 / y.reim.1)

/-- Cell: the tagged union of interpreter values (cell.hpp / types.hpp).
Pairs and vectors are references into a store, matching the shared-pointer
representation; `pr`/`vec` equality is pointer identity. -/
inductive Cell where
  | none
  | nil
  | bool (b : Bool)
  | char (c : Int)
  | num (n : Number)
  | str (s : String)
  | regex (s : String)
  | sym (s : String)
  | pr (i : Nat)
  | vec (i : Nat)
deriving DecidableEq

/-- Errors thrown by the primitive operations. -/
inductive Err where
  | outOfRange   -- std::out_of_range from std::vector::at
  | badVariant   -- std::bad_variant_access: wrong cell variant
  | invalidArg   -- std::invalid_argument
deriving DecidableEq

/-- Conversion Cell → Number (std::get-style access used by `Number res = args.at(0)`). -/
def asNum : Cell → Except Err Number
  | .num n => .ok n
  | _ => .error .badVariant

/-- `args.at(i)`: throws std::out_of_range when the index is out of bounds. -/
def listAt (l : List Cell) (n : Nat) : Except Err Cell :=
  match l.get? n with
  | some c => .ok c
  | none => .error .outOfRange

/-- Loop of fun_add (primop.cpp lines 38-39): `for (Number val : args) res += val`. -/
def addLoop : List Cell → Number → Except Err Number
  | [], acc => .ok acc
  | c :: rest, acc => do
    let v ← asNum c
    addLoop rest (nAdd acc v)

/-- fun_add (primop.cpp lines 34-42): `Number res = 0; for (Number val : args) res += val;`. -/
def fun_add (args : List Cell) : Except Err Cell := do
  let r ← addLoop args (.int 0)
  return .num r

/-- Loop of fun_mul (primop.cpp lines 58-59). -/
def mulLoop : List Cell → Number → Except Err Number
  | [], acc => .ok acc
  | c :: rest, acc => do
    let v ← asNum c
    mulLoop rest (nMul acc v)

/-- fun_mul (primop.cpp lines 54-62): `Number res = 1; for (Number val : args) res *= val;`. -/
def fun_mul (args : List Cell) : Except Err Cell := do
  let r ← mulLoop args (.int 1)
  return .num r

/-- Loop of fun_sub (primop.cpp lines 48-49): iterates from the second argument. -/
def subLoop : List Cell → Number → Except Err Number
  | [], acc => .ok acc
  | c :: rest, acc => do
    let v ← asNum c
    subLoop rest (nSub acc v)

/-- fun_sub (primop.cpp lines 44-52):
`Number res = args.at(0); for (iter = ++args.begin(); iter != end; ++iter) res -= *iter;`. -/
def fun_sub (args : List Cell) : Except Err Cell := do
  let c ← listAt args 0
  let n ← asNum c
  let r ← subLoop (args.drop 1) n
  return .num r

/-- Loop of fun_div (primop.cpp lines 68-69). -/
def divLoop : List Cell → Number → Except Err Number
  | [], acc => .ok acc
  | c :: rest, acc => do
    let v ← asNum c
    divLoop rest (nDiv acc v)

/-- fun_div (primop.cpp lines 64-72):
`Number res = args.at(0); for (iter = ++args.begin(); iter != end; ++iter) res /= *iter;`. -/
def fun_div (args : List Cell) : Except Err Cell := do
  let c ← listAt args 0
  let n ← asNum c
  let r ← divLoop (args.drop 1) n
  return .num r

/-- The store of heap-allocated interpreter objects: cons cells (car, cdr)
addressed by index, vectors, and the root environment frame used by the
reader (spec sections 3.3, 4.3). -/
structure Store where
  heap : List (Cell × Cell)
  vecs : List (List Cell)
  env : String → Option Cell

/-- cons: allocates a fresh pair and returns its reference. -/
def Store.cons (st : Store) (a d : Cell) : Cell × Store :=
  (.pr st.heap.length, { st with heap := st.heap ++ [(a, d)] })

/-- car of a cell; non-pairs throw. -/
def Store.carOf (st : Store) (c : Cell) : Except Err Cell :=
  match c with
  | .pr i =>
    match st.heap.get? i with
    | some p => .ok p.1
    | none => .error .outOfRange
  | _ => .error .badVariant

/-- cdr of a cell; non-pairs throw. -/
def Store.cdrOf (st : Store) (c : Cell) : Except Err Cell :=
  match c with
  | .pr i =>
    match st.heap.get? i with
    | some p => .ok p.2
    | none => .error .outOfRange
  | _ => .error .badVariant

/-- set-car!: mutates the pair in place. -/
def Store.setCar (st : Store) (c v : Cell) : Except Err Store :=
  match c with
  | .pr i =>
    match st.heap.get? i with
    | some p => .ok { st with heap := st.heap.set i (v, p.2) }
    | none => .error .outOfRange
  | _ => .error .badVariant

/-- set-cdr!: mutates the pair in place. -/
def Store.setCdr (st : Store) (c v : Cell) : Except Err Store :=
  match c with
  | .pr i =>
    match st.heap.get? i with
    | some p => .ok { st with heap := st.heap.set i (p.1, v) }
    | none => .error .outOfRange
  | _ => .error .badVariant

/-- Loop of fun_list (primop.cpp lines 28-29):
`set_cdr(tail, cons(*iter, nil)); tail = cdr(tail)`. -/
def listBuildLoop : List Cell → Store → Cell → Except Err Store
  | [], st, _ => .ok st
  | c :: rest, st, tail =>
    let (nc, st') := st.cons c .nil
    match st'.setCdr tail nc with
    | .ok st'' => listBuildLoop rest st'' nc
    | .error e => .error e

/-- fun_list (primop.cpp lines 19-32). -/
def fun_list (args : List Cell) (st : Store) : Except Err Cell × Store :=
  match args with
  | [] => (.ok .nil, st)
  | a :: rest =>
    let (l, st') := st.cons a .nil
    match listBuildLoop rest st' l with
    | .ok st'' => (.ok l, st'')
    | .error e => (.error e, st')

/-- The primitive opcodes dispatched by `call` (primop.cpp lines 82-110). -/
inductive Intern where
  | op_cons | op_car | op_cdr | op_setcar | op_setcdr
  | op_list | op_add | op_sub | op_mul | op_div
deriving DecidableEq

/-- call (primop.cpp lines 82-110): dispatch a primitive opcode.  The store
is threaded explicitly; primitives that throw leave it as it was (the C++
exception propagates before any mutation). -/
def call (st : Store) (op : Intern) (args : List Cell) : Except Err Cell × Store :=
  match op with
  | .op_cons =>
    match listAt args 0, listAt args 1 with
    | .ok a, .ok b =>
      let (c, st') := st.cons a b
      (.ok c, st')
    | .error e, _ => (.error e, st)
    | _, .error e => (.error e, st)
  | .op_car => ((do let a ← listAt args 0; st.carOf a), st)
  | .op_cdr => ((do let a ← listAt args 0; st.cdrOf a), st)
  | .op_setcar =>
    match listAt args 0, listAt args 1 with
    | .ok a, .ok b =>
      (match st.setCar a b with
       | .ok st' => (.ok .none, st')
       | .error e => (.error e, st))
    | .error e, _ => (.error e, st)
    | _, .error e => (.error e, st)
  | .op_setcdr =>
    match listAt args 0, listAt args 1 with
    | .ok a, .ok b =>
      (match st.setCdr a b with
       | .ok st' => (.ok .none, st')
       | .error e => (.error e, st))
    | .error e, _ => (.error e, st)
    | _, .error e => (.error e, st)
  | .op_list => fun_list args st
  | .op_add => (fun_add args, st)
  | .op_sub => (fun_sub args, st)
  | .op_mul => (fun_mul args, st)
  | .op_div => (fun_div args, st)

/-- Complex stream output (number.hpp lines 182-199).  `sci` abstracts the
scientific-format scalar insertion `os << x` for a double (std::scientific is
in effect when a Number is printed); the code only chooses among branches by
sign comparisons, never by the digits of the scalar. -/
def complexStr (sci : Rat → String) (re im : Flo) : String :=
  if 0 < im ∨ im < 0 then
    if im < 0 then
      if -1 < im ∨ im < -1 then sci re ++ "-" ++ sci im ++ "i"
      else sci re ++ "-i"
    else
      if 1 < im ∨ im < 1 then sci re ++ "+" ++ sci im ++ "i"
      else sci re ++ "+i"
  else sci re

/-- Number stream output (number.hpp lines 204-214): an Int is inserted
plainly (decimal), Float and Complex are inserted with std::scientific. -/
def numberStr (sci : Rat → String) : Number → String
  | .int z => toString z
  | .real x => sci x
  | .cpx a b => complexStr sci a b

end PicoScm

namespace PicoScm.Writer

/-- The cdr slot of a cons cell, as seen by the list printer: another pair,
nil (proper list end) or any other cell (dotted tail).  `atom s` carries the
printed representation of that tail cell. -/
inductive Ref where
  | pr (i : Nat)
  | nl
  | atom (s : String)
deriving DecidableEq

/-- Finite arena of cons cells for the printer: each cell is (printed car,
cdr).  The car is kept as the string the recursive `os << car(iter)`
insertion produces for it; the tortoise/hare scan under study only walks the
cdr spine. -/
structure LHeap where
  cells : List (String × Ref)

def LHeap.n (h : LHeap) : Nat := h.cells.length

/-- Printed representation of the car of cell `i`. -/
def LHeap.car (h : LHeap) (i : Nat) : String := (h.cells.getD i ("", .nl)).1

/-- cdr of cell `i`. -/
def LHeap.cdrI (h : LHeap) (i : Nat) : Ref := (h.cells.getD i ("", .nl)).2

/-- cdr of a reference (only ever applied to pairs by the loop below;
on non-pairs the C++ `cdr` would throw, here it is the identity). -/
def LHeap.refCdr (h : LHeap) : Ref → Ref
  | .pr i => h.cdrI i
  | r => r

/-- Every pair reference stored in the heap is in range. -/
def LHeap.WF (h : LHeap) : Prop :=
  ∀ p ∈ h.cells, ∀ i, p.2 = Ref.pr i → i < h.n

def Ref.isPr : Ref → Bool
  | .pr _ => true
  | _ => false

/-- The cdr-trajectory: `traj h r0 k` is the cell reached from `r0` by `k`
applications of cdr. -/
def traj (h : LHeap) (r0 : Ref) : Nat → Ref
  | 0 => r0
  | k + 1 => h.refCdr (traj h r0 k)

/-- The for-loop of `operator<<(OSTREAM&, Cons*)` (streamop.cpp lines 21-37),
fuel-indexed.  State: `iter`, `slow`, and the output accumulated so far.
Each loop iteration advances `iter` twice and `slow` once; the loop exits
when `iter` leaves the pair spine (then `)` or ` . tail)` is appended) or
when the hare meets the tortoise (then ` ...)` is appended). -/
def printLoop (h : LHeap) : Nat → Ref → Ref → String → Option String
  | 0, _, _, _ => none
  | fuel + 1, iter, slow, acc =>
    match iter with
    | .nl => some (acc ++ ")")
    | .atom s => some (acc ++ " . " ++ s ++ ")")
    | .pr i =>
      let acc1 := acc ++ " " ++ h.car i
      match h.cdrI i with
      | .nl => some (acc1 ++ ")")
      | .atom s => some (acc1 ++ " . " ++ s ++ ")")
      | .pr j =>
        if slow = Ref.pr j then some (acc1 ++ " ...)")
        else printLoop h fuel (h.refCdr (.pr j)) (h.refCdr slow) (acc1 ++ " " ++ h.car j)

/-- operator<<(OSTREAM&, Cons*) (streamop.cpp lines 14-38): print `(`, the
first car, then run the scan with both pointers at cdr of the head cell. -/
def printCons (h : LHeap) (fuel : Nat) (i : Nat) : Option String :=
  printLoop h fuel (h.cdrI i) (h.cdrI i) ("(" ++ h.car i)

/-- The loop stops at iteration k when the hare leaves the pair spine at one
of its two steps, or meets the tortoise. -/
def stopAt (h : LHeap) (r0 : Ref) (k : Nat) : Prop :=
  (traj h r0 (2 * k)).isPr = false ∨ (traj h r0 (2 * k + 1)).isPr = false ∨
    traj h r0 k = traj h r0 (2 * k + 1)

/-- One self-looping cons cell: (set-cdr! x x) with car 1. -/
def cycHeap : LHeap := ⟨[("1", .pr 0)]⟩

end PicoScm.Writer

namespace PicoScm.Lexer

/-- Parser::lex_string (parser.cpp lines 254-279), reading from a character
stream modelled as a list.  `pr` is the locale predicate `iswprint`.  `prev`
is the last character run through the switch: when the stream is exhausted
the C++ loop performs one more iteration in which the failed extraction
leaves that character in `c`, so a final escape-consumed `"` is re-examined
and terminates the string; any other stale character leads to Error.
Returns (string as stored, rest of stream), or none for Token::Error. -/
def lexStrAux (pr : Char → Bool) : Char → List Char → Option (List Char × List Char)
  | prev, [] => if prev = '"' then some ([], []) else none
  | _, c :: rest =>
    if c = '"' then some ([], rest)
    else if c = '\\' then
      match rest with
      | [] => none
      | e :: rest' =>
        if pr e then (lexStrAux pr e rest').map (fun q => ('\\' :: e :: q.1, q.2))
        else none
    else if pr c then (lexStrAux pr c rest).map (fun q => (c :: q.1, q.2)) else none

/-- Entry point of lex_string; the local `Char c` starts uninitialized, so the
initial `prev` is an arbitrary non-quote character. -/
def lexString (pr : Char → Bool) (inp : List Char) : Option (List Char × List Char) :=
  lexStrAux pr (Char.ofNat 0) inp

/-- operator<<(OSTREAM&, const DisplayManip<StringPtr>&) (streamop.cpp lines
51-79): display-time expansion of stored escape sequences.  A backslash
followed by a, b, n, r, t becomes the control character; a backslash followed
by any other character displays that character; a trailing lone backslash
(cp + 1 == end) is printed as-is. -/
def displayStr : List Char → List Char
  | [] => []
  | '\\' :: c :: rest =>
    (if c = 'a' then Char.ofNat 7
     else if c = 'b' then Char.ofNat 8
     else if c = 'n' then Char.ofNat 10
     else if c = 'r' then Char.ofNat 13
     else if c = 't' then Char.ofNat 9
     else c) :: displayStr rest
  | c :: rest => c :: displayStr rest

/-- Parser::is_special (parser.cpp line 519): strchr of
( ) double-quote apostrophe grave-accent comma semicolon, by code point. -/
def isSpecialCh (c : Char) : Bool :=
  c.toNat ∈ [40, 41, 34, 39, 96, 44, 59]

/-- std::isspace for the default locale, by code point
(space, tab, newline, vertical tab, form feed, carriage return). -/
def isSpaceCh (c : Char) : Bool :=
  c.toNat ∈ [32, 9, 10, 11, 12, 13]

def isDigitCh (c : Char) : Bool := 48 ≤ c.toNat ∧ c.toNat ≤ 57

/-- std::stoi with its default base 10 (as invoked at parser.cpp line 408):
optional sign, then a run of decimal digits; conversion stops at the first
non-digit.  Returns none (std::invalid_argument) when no digit is consumed.
Leading whitespace skipping is omitted: every call site passes a string
starting with the digit 0. -/
def stoi10 (s : List Char) : Option Int :=
  let (sgn, rest) :=
    match s with
    | '+' :: r => ((1 : Int), r)
    | '-' :: r => ((-1 : Int), r)
    | r => ((1 : Int), r)
  let ds := rest.takeWhile isDigitCh
  if ds = [] then none
  else some (sgn * (ds.foldl (fun a c => a * 10 + ((c.toNat : Int) - 48)) 0))

/-- ::tolower for the character range the lexer compares (ASCII letters). -/
def toLowerCh (c : Char) : Char :=
  if 65 ≤ c.toNat ∧ c.toNat ≤ 90 then Char.ofNat (c.toNat + 32) else c

def lowerList (s : List Char) : List Char := s.map toLowerCh

/-- The named-character table `stab` of Parser::lex_char (parser.cpp lines
310-394), in source order, names as written and characters by code point
(EOF is -1; the delete and escape entries carry NUL exactly as in the
source). -/
def stab : List (String × Int) := [
  ("#\\eof", -1),
  ("#\\alarm", 7),
  ("#\\backspace", 8),
  ("#\\delete", 0),
  ("#\\escape", 0),
  ("#\\newline", 10),
  ("#\\null", 0),
  ("#\\return", 13),
  ("#\\space", 32),
  ("#\\tab", 9),
  ("#\\ae", 228), ("#\\AE", 196),
  ("#\\ue", 252), ("#\\UE", 220),
  ("#\\oe", 246), ("#\\OE", 214),
  ("#\\ss", 223),
  ("#\\_0", 8320), ("#\\^0", 8304),
  ("#\\_1", 8321), ("#\\^1", 185),
  ("#\\_2", 8322), ("#\\^2", 178),
  ("#\\_3", 8323), ("#\\^3", 179),
  ("#\\_4", 8324), ("#\\^4", 8308),
  ("#\\_5", 8325), ("#\\^5", 8309),
  ("#\\_6", 8326), ("#\\^6", 8310),
  ("#\\_7", 8327), ("#\\^7", 8311),
  ("#\\_8", 8328), ("#\\^8", 8312),
  ("#\\_9", 8329), ("#\\^9", 8313),
  ("#\\alpha", 945),
  ("#\\beta", 946),
  ("#\\gamma", 947), ("#\\Gamma", 915),
  ("#\\delta", 948), ("#\\Delta", 916),
  ("#\\epsilon", 949),
  ("#\\zeta", 950),
  ("#\\eta", 951),
  ("#\\theta", 952),
  ("#\\iota", 953),
  ("#\\kappa", 954),
  ("#\\lambda", 955),
  ("#\\mu", 956),
  ("#\\nu", 957),
  ("#\\xi", 958), ("#\\Xi", 926),
  ("#\\omicron", 959),
  ("#\\pi", 960), ("#\\Pi", 928),
  ("#\\rho", 961),
  ("#\\tau", 964),
  ("#\\sigma", 963), ("#\\Sigma", 931),
  ("#\\upsilon", 965),
  ("#\\phi", 966), ("#\\Phi", 934),
  ("#\\chi", 967),
  ("#\\psi", 968), ("#\\Psi", 936),
  ("#\\omega", 969), ("#\\Omega", 937),
  ("#\\le", 8804),
  ("#\\ge", 8805),
  ("#\\sim", 8764),
  ("#\\simeq", 8771),
  ("#\\approx", 8776),
  ("#\\nabla", 8711),
  ("#\\nabla", 8711),
  ("#\\nabla", 8711),
  ("#\\sum", 8721),
  ("#\\prod", 8719),
  ("#\\int", 8747),
  ("#\\oint", 8750),
  ("#\\pm", 177),
  ("#\\div", 247),
  ("#\\cdot", 183),
  ("#\\star", 8902),
  ("#\\circ", 8728),
  ("#\\bullet", 8226),
  ("#\\diamond", 9671),
  ("#\\lhd", 9665),
  ("#\\rhd", 9655),
  ("#\\trup", 9651),
  ("#\\trdown", 9661),
  ("#\\times", 215),
  ("#\\otimes", 8855),
  ("#\\in", 8712),
  ("#\\notin", 8713),
  ("#\\subset", 8834),
  ("#\\subseteq", 8838),
  ("#\\in", 8712),
  ("#\\infty", 8734)]

/-- true when the stream has a next character and it is whitespace or a
special scheme character (the `std::isspace(in.peek()) || is_special(in.peek())`
condition; `peek` on an exhausted stream yields EOF, which satisfies
neither predicate). -/
def peekCond (inp : List Char) : Bool :=
  match inp with
  | c :: _ => isSpaceCh c || isSpecialCh c
  | [] => false

/-- Parser::lex_char (parser.cpp lines 308-421).  `str` is the lexeme
(starting `#\`), `inp` the rest of the input stream.  Returns the code point
of the Char token together with the remaining stream, or none for
Token::Error.  Branches, in source order:
lexeme `#\` alone with a space/special next char takes that char from the
stream; a 3-character lexeme yields its third character; a longer lexeme
whose third character is `x` goes through `stoi` (base 10) on the suffix with
the backslash overwritten by `0`; otherwise the lexeme is lowercased and
looked up in `stab`. -/
def lexCharTok (str : List Char) (inp : List Char) : Option (Int × List Char) :=
  if str.length == 2 && peekCond inp then
    match inp with
    | c :: rest => some ((c.toNat : Int), rest)
    | [] => none
  else if str.length == 3 then
    some (((str.getD 2 (Char.ofNat 0)).toNat : Int), inp)
  else if 3 < str.length && str.getD 2 (Char.ofNat 0) == 'x' then
    (stoi10 ('0' :: str.drop 2)).map (fun v => (v, inp))
  else
    match stab.find? (fun p => p.1.data == lowerList str) with
    | some p => some (p.2, inp)
    | none => none

/-- Modelled from the spec: the intended reading of the hex character form,
`#\xNN…` with the digit suffix read as a base-16 integer code point
(spec section 4.1, "Character lexer").  Returns none when a non-hex-digit
appears. -/
def specHexCodePoint (str : List Char) : Option Int :=
  let ds := str.drop 3
  let hexVal (c : Char) : Option Nat :=
    if 48 ≤ c.toNat ∧ c.toNat ≤ 57 then some (c.toNat - 48)
    else if 97 ≤ c.toNat ∧ c.toNat ≤ 102 then some (c.toNat - 87)
    else if 65 ≤ c.toNat ∧ c.toNat ≤ 70 then some (c.toNat - 55)
    else none
  if ds = [] then none
  else ds.foldl (fun acc c => do
    let a ← acc
    let v ← hexVal c
    some (a * 16 + (v : Int))) (some 0)

end PicoScm.Lexer

namespace PicoScm.Parser

open PicoScm

/-- The token kinds produced by Parser::get_token, with the token values the
lexer leaves in strtok / numtok / chrtok attached (parser.hpp token enum as
used in parser.cpp). -/
inductive Tok where
  | comment
  | btrue
  | bfalse
  | chr (c : Int)
  | quote
  | quasiquote
  | unquote
  | unquotesplice
  | number (n : Number)
  | strT (s : String)
  | regexT (s : String)
  | symT (s : String)
  | vectorT
  | obrace
  | cbrace
  | dot
  | eofT
  | errT
deriving DecidableEq

/-- Reader failure: parse_error / invalid-token throw, or fuel exhaustion of
the model (the C++ recursion is unbounded). -/
inductive PErr where
  | fuelOut
  | invalidToken   -- read: default case, throw parse_error("invalid token")
  | listError      -- parse_list: goto error
  | vectorError    -- parse_vector: goto error
  | variantError   -- set_cdr on a non-pair (std::bad_variant_access)
deriving DecidableEq

/-- Parser state: the interpreter store (cons heap, vectors, root
environment) plus the parser's put_back token. -/
structure PState where
  store : Store
  pback : Option Tok

/-- The sentinel symbol `s_expr` under which parse_list roots the list being
built (its print name is declared in the headers, which are not among the
sources; only its identity matters here). -/
def sExpr : String := "s_expr"

/-- get_token at the token level (parser.cpp lines 533-541): a pending
put_back token is returned first and cleared; an exhausted stream yields
Token::Eof. -/
def getTok (toks : List Tok) (st : PState) : Tok × List Tok × PState :=
  match st.pback with
  | some t => (t, toks, { st with pback := none })
  | none =>
    match toks with
    | [] => (.eofT, [], st)
    | t :: r => (t, r, st)

/-- scm.cons through the parser state. -/
def PState.consP (st : PState) (a d : Cell) : Cell × PState :=
  let (c, s) := st.store.cons a d
  (c, { st with store := s })

/-- scm.addenv (Scheme::addenv; scheme.cpp is not among the sources).
Modelled from the spec: section 4.3, `addenv(sym, val)` inserts or
overwrites the binding in the root environment frame. -/
def PState.addenv (st : PState) (s : String) (v : Cell) : PState :=
  { st with store := { st.store with
      env := fun x => if x = s then some v else st.store.env x } }

/-- set_cdr through the parser state. -/
def PState.setCdrP (st : PState) (c v : Cell) : Except PErr PState :=
  match st.store.setCdr c v with
  | .ok s => .ok { st with store := s }
  | .error _ => .error .variantError

/-- scm.list(sym, cell) (Scheme::list; scheme.cpp is not among the sources).
Modelled from the spec: a fresh two-element proper list
cons(sym, cons(cell, nil)). -/
def PState.list2 (st : PState) (a b : Cell) : Cell × PState :=
  let (t, st1) := st.consP b .nil
  let (l, st2) := st1.consP a t
  (l, st2)

/-- vec(0, none): allocate a fresh empty vector. -/
def PState.allocVec (st : PState) : Cell × PState :=
  (.vec st.store.vecs.length,
   { st with store := { st.store with vecs := st.store.vecs ++ [[]] } })

/-- vptr->push_back(cell). -/
def PState.vecPush (st : PState) (i : Nat) (c : Cell) : PState :=
  { st with store := { st.store with
      vecs := st.store.vecs.set i ((st.store.vecs.getD i []) ++ [c]) } }

mutual

/-- Parser::read (parser.cpp lines 603-658), fuel-indexed: dispatch on the
next token; quote families wrap the recursively read datum; OBrace / Vector
enter the list / vector parsers; Eof yields the EOF character cell; CBrace,
Dot and Error fall to the default throw. -/
def readF : Nat → List Tok → PState → Except PErr (Cell × List Tok × PState)
  | 0, _, _ => .error .fuelOut
  | fuel + 1, toks, st =>
    match getTok toks st with
    | (.comment, toks1, st1) => readF fuel toks1 st1
    | (.btrue, toks1, st1) => .ok (.bool true, toks1, st1)
    | (.bfalse, toks1, st1) => .ok (.bool false, toks1, st1)
    | (.chr c, toks1, st1) => .ok (.char c, toks1, st1)
    | (.quote, toks1, st1) => do
      let (c, toks2, st2) ← readF fuel toks1 st1
      let (l, st3) := st2.list2 (.sym "quote") c
      .ok (l, toks2, st3)
    | (.quasiquote, toks1, st1) => do
      let (c, toks2, st2) ← readF fuel toks1 st1
      let (l, st3) := st2.list2 (.sym "quasiquote") c
      .ok (l, toks2, st3)
    | (.unquote, toks1, st1) => do
      let (c, toks2, st2) ← readF fuel toks1 st1
      let (l, st3) := st2.list2 (.sym "unquote") c
      .ok (l, toks2, st3)
    | (.unquotesplice, toks1, st1) => do
      let (c, toks2, st2) ← readF fuel toks1 st1
      let (l, st3) := st2.list2 (.sym "unquote-splicing") c
      .ok (l, toks2, st3)
    | (.number n, toks1, st1) => .ok (.num n, toks1, st1)
    | (.strT s, toks1, st1) => .ok (.str s, toks1, st1)
    | (.regexT s, toks1, st1) => .ok (.regex s, toks1, st1)
    | (.symT s, toks1, st1) => .ok (.sym s, toks1, st1)
    | (.vectorT, toks1, st1) => parseVecF fuel toks1 st1
    | (.obrace, toks1, st1) => parseListLoop fuel toks1 st1 .nil .nil
    | (.eofT, toks1, st1) => .ok (.char (-1), toks1, st1)
    | (.cbrace, _, _) => .error .invalidToken
    | (.dot, _, _) => .error .invalidToken
    | (.errT, _, _) => .error .invalidToken

/-- Parser::parse_list (parser.cpp lines 686-727), fuel-indexed, carrying
the `list` and `tail` locals.  A CBrace returns the list built so far; a Dot
reads exactly one datum, requires a CBrace, and plants the datum as the
dotted tail; Eof and Error (and a Dot not followed by CBrace, via the
fallthrough) abort; any other token is put back and read as the next
element.  The first element's cons is also rooted in the environment under
the sentinel: `scm.addenv(s_expr, list)` (line 721). -/
def parseListLoop : Nat → List Tok → PState → Cell → Cell → Except PErr (Cell × List Tok × PState)
  | 0, _, _, _, _ => .error .fuelOut
  | fuel + 1, toks, st, list, tail =>
    match getTok toks st with
    | (.comment, toks1, st1) => parseListLoop fuel toks1 st1 list tail
    | (.cbrace, toks1, st1) => .ok (list, toks1, st1)
    | (.dot, toks1, st1) => do
      let (cell, toks2, st2) ← readF fuel toks1 st1
      match getTok toks2 st2 with
      | (.cbrace, toks3, st3) => do
        let st4 ← st3.setCdrP tail cell
        .ok (list, toks3, st4)
      | _ => .error .listError
    | (.eofT, _, _) => .error .listError
    | (.errT, _, _) => .error .listError
    | (t, toks1, st1) => do
      let st2 := { st1 with pback := some t }
      let (cell, toks2, st3) ← readF fuel toks1 st2
      match tail with
      | .pr i => do
        let (nc, st4) := st3.consP cell .nil
        let st5 ← st4.setCdrP (.pr i) nc
        parseListLoop fuel toks2 st5 list nc
      | _ =>
        let (nc, st4) := st3.consP cell .nil
        let st5 := st4.addenv sExpr nc
        parseListLoop fuel toks2 st5 nc nc

/-- Parser::parse_vector, entry (parser.cpp lines 661-666): allocate the
vector, require an opening brace, then loop. -/
def parseVecF : Nat → List Tok → PState → Except PErr (Cell × List Tok × PState)
  | 0, _, _ => .error .fuelOut
  | fuel + 1, toks, st =>
    let (v, st1) := st.allocVec
    match v with
    | .vec i =>
      (match getTok toks st1 with
       | (.obrace, toks1, st2) => parseVecLoop fuel toks1 st2 i
       | _ => .error .vectorError)
    | _ => .error .vectorError

/-- Parser::parse_vector, loop (parser.cpp lines 667-680): CBrace returns
the vector; Eof / Error abort; other tokens are put back and read, the datum
pushed onto the vector. -/
def parseVecLoop : Nat → List Tok → PState → Nat → Except PErr (Cell × List Tok × PState)
  | 0, _, _, _ => .error .fuelOut
  | fuel + 1, toks, st, i =>
    match getTok toks st with
    | (.comment, toks1, st1) => parseVecLoop fuel toks1 st1 i
    | (.cbrace, toks1, st1) => .ok (.vec i, toks1, st1)
    | (.eofT, _, _) => .error .vectorError
    | (.errT, _, _) => .error .vectorError
    | (t, toks1, st1) => do
      let st2 := { st1 with pback := some t }
      let (cell, toks2, st3) ← readF fuel toks1 st2
      parseVecLoop fuel toks2 (st3.vecPush i cell) i

end

/-- Environments agree away from the sentinel slot. -/
def envAgrees (st st' : PState) : Prop :=
  ∀ s, s ≠ sExpr → st'.store.env s = st.store.env s

/-- Token stream of the source text "(1)". -/
def c6toks : List Tok := [Tok.obrace, Tok.number (.int 1), Tok.cbrace]

/-- Empty initial state: no cons cells, no vectors, empty root environment,
no put-back token. -/
def c6st0 : PState := ⟨⟨[], [], fun _ => none⟩, none⟩

/-- Initial state carrying one ordinary binding x ↦ 7. -/
def c6st1 : PState :=
  ⟨⟨[], [], fun s => if s = "x" then some (Cell.num (.int 7)) else none⟩, none⟩

end PicoScm.Parser

namespace PicoScm

/-- Claim C1: construction of a Number from a real part x and an imaginary
part y yields a Complex with parts (x, y) when y is nonzero and the plain
value of x when y is zero (Int for an integral x, Real for a floating x);
a Real equal to its integer truncation is never collapsed to Int by
construction, only the explicit truncation does that. -/
theorem c1_number_construction (x y : CScalar) :
    (y.val ≠ 0 → numberOfParts x y = .cpx x.toFlo y.toFlo) ∧
    (y.val = 0 → numberOfParts x y = numberOfScalar x) ∧
    (∀ q : Rat, numberOfScalar (.f q) = .real q) ∧
    (∀ q : Rat, numberOfParts (.f q) (.f 0) = .real q) ∧
    (∀ q : Rat, numberOfComplex q 0 = .real q) ∧
    (∀ z : Int, numberOfScalar (.i z) = .int z) ∧
    (∀ q : Rat, truncNum (.real q) = .int (ratTrunc q)) := by
  refine ⟨?_, ?_, fun q => rfl, fun q => ?_, fun q => ?_, fun z => rfl, fun q => rfl⟩
  · intro hy
    unfold numberOfParts
    rw [if_pos hy.lt_or_lt.symm]
  · intro hy
    unfold numberOfParts
    rw [hy, if_neg (by simp)]
  · unfold numberOfParts
    rw [if_neg (by simp [CScalar.val])]
    rfl
  · unfold numberOfComplex numberOfParts
    rw [if_neg (by simp [CScalar.val])]
    rfl

/-- Witness for C1 at concrete inputs. -/
theorem c1_witness :
    ((CScalar.f 1).val ≠ 0 ∧ numberOfParts (.f 2) (.f 1) = .cpx 2 1) ∧
    ((CScalar.i 0).val = 0 ∧ numberOfParts (.f (5/2)) (.i 0) = .real (5/2)) :=
  ⟨⟨by norm_num [CScalar.val],
    (c1_number_construction (.f 2) (.f 1)).1 (by norm_num [CScalar.val])⟩,
   ⟨by norm_num [CScalar.val],
    ((c1_number_construction (.f (5/2)) (.i 0)).2.1 (by norm_num [CScalar.val])).trans rfl⟩⟩

/-- Claim C2 (code bug): fun_sub and fun_div applied to a one-element
argument list return the argument unchanged — the loops start at the second
argument — instead of the negation / reciprocal the spec requires:
(- 5) evaluates to 5 and (/ 5) evaluates to 5. -/
theorem c2_unary_sub_div_bug :
    fun_sub [Cell.num (.int 5)] = .ok (.num (.int 5)) ∧
    fun_div [Cell.num (.int 5)] = .ok (.num (.int 5)) ∧
    Number.int 5 ≠ nSub (.int 0) (.int 5) ∧
    Number.int 5 ≠ nDiv (.int 1) (.int 5) := by
  refine ⟨rfl, rfl, by decide, by decide⟩

/-- Claim C9 helper: the fun_add loop over number cells is a left fold. -/
theorem addLoop_nums (ns : List Number) (acc : Number) :
    addLoop (ns.map .num) acc = .ok (ns.foldl nAdd acc) := by
  induction ns generalizing acc with
  | nil => rfl
  | cons n rest ih => simpa [addLoop, asNum] using ih (nAdd acc n)

/-- Claim C9 helper: the fun_mul loop over number cells is a left fold. -/
theorem mulLoop_nums (ns : List Number) (acc : Number) :
    mulLoop (ns.map .num) acc = .ok (ns.foldl nMul acc) := by
  induction ns generalizing acc with
  | nil => rfl
  | cons n rest ih => simpa [mulLoop, asNum] using ih (nMul acc n)

/-- Claim C9: the + primitive on the empty argument list returns 0, the *
primitive returns 1; on number arguments they compute the left-to-right
fold from 0 resp. 1, and (+ 1 2 3) gives 6. -/
theorem c9_add_mul_identities :
    fun_add [] = .ok (.num (.int 0)) ∧
    fun_mul [] = .ok (.num (.int 1)) ∧
    (∀ ns : List Number, fun_add (ns.map .num) = .ok (.num (ns.foldl nAdd (.int 0)))) ∧
    (∀ ns : List Number, fun_mul (ns.map .num) = .ok (.num (ns.foldl nMul (.int 1)))) ∧
    fun_add [.num (.int 1), .num (.int 2), .num (.int 3)] = .ok (.num (.int 6)) := by
  refine ⟨rfl, rfl, fun ns => ?_, fun ns => ?_, rfl⟩
  · simp [fun_add, addLoop_nums]
  · simp [fun_mul, mulLoop_nums]

/-- Claim C10: the - and / primitives applied through `call` to an empty
argument list fail with the out-of-range error from args.at(0), and the
store (cells and environment bindings) is returned untouched. -/
theorem c10_empty_sub_div_error (st : Store) :
    call st .op_sub [] = (.error .outOfRange, st) ∧
    call st .op_div [] = (.error .outOfRange, st) :=
  ⟨rfl, rfl⟩

/-- Claim C4: write prints an Int as plain decimal, a Real in the
(scientific) scalar format, and a Complex a+bi / a-bi with the abbreviated
+i / -i coefficient exactly for b = 1 / b = -1.  `sci` is the scalar
rendering under std::scientific. -/
theorem c4_number_printing (sci : Rat → String) (z : Int) (x a b : Rat) :
    numberStr sci (.int z) = toString z ∧
    numberStr sci (.real x) = sci x ∧
    (b = 1 → numberStr sci (.cpx a b) = sci a ++ "+i") ∧
    (0 < b → b ≠ 1 → numberStr sci (.cpx a b) = sci a ++ "+" ++ sci b ++ "i") ∧
    (b = -1 → numberStr sci (.cpx a b) = sci a ++ "-i") ∧
    (b < 0 → b ≠ -1 → numberStr sci (.cpx a b) = sci a ++ "-" ++ sci b ++ "i") := by
  refine ⟨rfl, rfl, ?_, ?_, ?_, ?_⟩
  · rintro rfl
    show complexStr sci a 1 = _
    unfold complexStr
    rw [if_pos (by norm_num), if_neg (by norm_num), if_neg (by norm_num)]
  · intro hb hb1
    show complexStr sci a b = _
    unfold complexStr
    rw [if_pos (Or.inl hb), if_neg (not_lt.2 hb.le), if_pos hb1.lt_or_lt.symm]
  · rintro rfl
    show complexStr sci a (-1) = _
    unfold complexStr
    rw [if_pos (by norm_num), if_pos (by norm_num), if_neg (by norm_num)]
  · intro hb hb1
    show complexStr sci a b = _
    unfold complexStr
    rw [if_pos (Or.inr hb), if_pos hb, if_pos hb1.lt_or_lt.symm]

/-- Witness for C4 at concrete inputs (a constant scalar renderer). -/
theorem c4_witness :
    ((0 : Rat) < 3 ∧ (3 : Rat) ≠ 1 ∧
      numberStr (fun _ => "S") (.cpx 2 3) = "S" ++ "+" ++ "S" ++ "i") ∧
    ((-1 : Rat) < 0 ∧
      numberStr (fun _ => "S") (.cpx 2 (-1)) = "S" ++ "-i") :=
  ⟨⟨by norm_num, by norm_num,
    (c4_number_printing (fun _ => "S") 0 0 2 3).2.2.2.1 (by norm_num) (by norm_num)⟩,
   ⟨by norm_num,
    (c4_number_printing (fun _ => "S") 0 0 2 (-1)).2.2.2.2.1 rfl⟩⟩

end PicoScm

namespace PicoScm.Writer

theorem Ref.isPr_iff (r : Ref) : r.isPr = true ↔ ∃ i, r = Ref.pr i := by
  cases r <;> simp [Ref.isPr]

theorem traj_succ (h : LHeap) (r0 : Ref) (k : Nat) :
    traj h r0 (k + 1) = h.refCdr (traj h r0 k) := rfl

/-- Unfoldings of the printing loop at positive fuel, one per exit shape. -/
theorem printLoop_at_nl (h : LHeap) (f : Nat) (slow : Ref) (acc : String) :
    printLoop h (f + 1) Ref.nl slow acc = some (acc ++ ")") := rfl

theorem printLoop_at_atom (h : LHeap) (f : Nat) (s : String) (slow : Ref) (acc : String) :
    printLoop h (f + 1) (Ref.atom s) slow acc = some (acc ++ " . " ++ s ++ ")") := rfl

theorem printLoop_pr_cases (h : LHeap) (f i : Nat) (slow : Ref) (acc : String) :
    printLoop h (f + 1) (Ref.pr i) slow acc =
      match h.cdrI i with
      | Ref.nl => some (acc ++ " " ++ h.car i ++ ")")
      | Ref.atom s => some (acc ++ " " ++ h.car i ++ " . " ++ s ++ ")")
      | Ref.pr j =>
        if slow = Ref.pr j then some (acc ++ " " ++ h.car i ++ " ...)")
        else printLoop h f (h.refCdr (Ref.pr j)) (h.refCdr slow)
          (acc ++ " " ++ h.car i ++ " " ++ h.car j) := rfl

theorem printLoop_pr_nl (h : LHeap) (f i : Nat) (slow : Ref) (acc : String)
    (hc : h.cdrI i = Ref.nl) :
    printLoop h (f + 1) (Ref.pr i) slow acc = some (acc ++ " " ++ h.car i ++ ")") := by
  rw [printLoop_pr_cases, hc]

theorem printLoop_pr_atom (h : LHeap) (f i : Nat) (s : String) (slow : Ref) (acc : String)
    (hc : h.cdrI i = Ref.atom s) :
    printLoop h (f + 1) (Ref.pr i) slow acc =
      some (acc ++ " " ++ h.car i ++ " . " ++ s ++ ")") := by
  rw [printLoop_pr_cases, hc]

theorem printLoop_pr_meet (h : LHeap) (f i j : Nat) (slow : Ref) (acc : String)
    (hc : h.cdrI i = Ref.pr j) (hs : slow = Ref.pr j) :
    printLoop h (f + 1) (Ref.pr i) slow acc = some (acc ++ " " ++ h.car i ++ " ...)") := by
  rw [printLoop_pr_cases, hc]
  simp [hs]

theorem printLoop_pr_step (h : LHeap) (f i j : Nat) (slow : Ref) (acc : String)
    (hc : h.cdrI i = Ref.pr j) (hs : slow ≠ Ref.pr j) :
    printLoop h (f + 1) (Ref.pr i) slow acc =
      printLoop h f (h.refCdr (Ref.pr j)) (h.refCdr slow)
        (acc ++ " " ++ h.car i ++ " " ++ h.car j) := by
  rw [printLoop_pr_cases, hc]
  simp [hs]

/-- An in-range cell of the heap is a member of the cell list. -/
theorem cdrI_mem (h : LHeap) (j : Nat) (hj : j < h.n) :
    h.cells.getD j ("", Ref.nl) ∈ h.cells := by
  rw [List.getD_eq_getElem?_getD, List.getElem?_eq_getElem hj]
  exact List.getElem_mem hj

/-- In a well-formed heap every pair on the trajectory of an in-range start
is in range. -/
theorem traj_pr_lt (h : LHeap) (hwf : h.WF) (r0 : Ref)
    (h0 : ∀ i, r0 = Ref.pr i → i < h.n) :
    ∀ k i, traj h r0 k = Ref.pr i → i < h.n := by
  intro k
  induction k with
  | zero => exact h0
  | succ k ih =>
    intro i hi
    rw [traj_succ] at hi
    cases hk : traj h r0 k with
    | pr j =>
      rw [hk] at hi
      have hj := ih j hk
      exact hwf _ (cdrI_mem h j hj) i hi
    | nl => rw [hk] at hi; cases hi
    | atom s => rw [hk] at hi; cases hi

/-- Determinism: one period of the trajectory propagates forward. -/
theorem traj_add_period (h : LHeap) (r0 : Ref) (a d : Nat)
    (hd : traj h r0 (a + d) = traj h r0 a) :
    ∀ m, a ≤ m → traj h r0 (m + d) = traj h r0 m := by
  intro m hm
  induction m, hm using Nat.le_induction with
  | base => exact hd
  | succ m hm ih =>
    have he : m + 1 + d = (m + d) + 1 := by omega
    rw [he, traj_succ, ih, ← traj_succ]

/-- Iterated periods. -/
theorem traj_add_mul_period (h : LHeap) (r0 : Ref) (a d : Nat)
    (hd : traj h r0 (a + d) = traj h r0 a) :
    ∀ t m, a ≤ m → traj h r0 (m + t * d) = traj h r0 m := by
  intro t
  induction t with
  | zero => simp
  | succ t ih =>
    intro m hm
    have h1 : m + (t + 1) * d = (m + t * d) + d := by ring
    rw [h1, traj_add_period h r0 a d hd _ (le_trans hm (Nat.le_add_right m _)), ih m hm]

/-- Pigeonhole: when the first n+1 trajectory cells are all pairs of a
well-formed n-cell heap, two of them coincide. -/
theorem traj_collision (h : LHeap) (hwf : h.WF) (r0 : Ref)
    (h0 : ∀ i, r0 = Ref.pr i → i < h.n)
    (hall : ∀ k, k ≤ h.n → (traj h r0 k).isPr = true) :
    ∃ a b, a < b ∧ b ≤ h.n ∧ traj h r0 a = traj h r0 b := by
  classical
  set f : Nat → Nat := fun k => match traj h r0 k with | .pr i => i | _ => 0 with hf
  have hmaps : ∀ k ∈ Finset.range (h.n + 1), f k ∈ Finset.range h.n := by
    intro k hk
    rw [Finset.mem_range] at hk ⊢
    obtain ⟨i, hi⟩ := (Ref.isPr_iff _).1 (hall k (by omega))
    have := traj_pr_lt h hwf r0 h0 k i hi
    simpa [hf, hi] using this
  obtain ⟨x, hx, y, hy, hxy, hfxy⟩ :=
    Finset.exists_ne_map_eq_of_card_lt_of_maps_to
      (by simp : (Finset.range h.n).card < (Finset.range (h.n + 1)).card) hmaps
  rw [Finset.mem_range] at hx hy
  have htraj : ∀ u, u ≤ h.n → traj h r0 u = Ref.pr (f u) := by
    intro u hu
    obtain ⟨i, hi⟩ := (Ref.isPr_iff _).1 (hall u hu)
    rw [hi]
    simp [hf, hi]
  have hxy' : traj h r0 x = traj h r0 y := by
    rw [htraj x (by omega), htraj y (by omega), hfxy]
  rcases Nat.lt_or_ge x y with hlt | hge
  · exact ⟨x, y, hlt, by omega, hxy'⟩
  · have hlt : y < x := by omega
    exact ⟨y, x, hlt, by omega, hxy'.symm⟩

/-- On a fully cyclic (all-pair) trajectory the hare meets the tortoise
within n^2 steps. -/
theorem meet_exists (h : LHeap) (hwf : h.WF) (r0 : Ref)
    (h0 : ∀ i, r0 = Ref.pr i → i < h.n)
    (hall : ∀ k, (traj h r0 k).isPr = true) :
    ∃ k, k < h.n * h.n + 1 ∧ traj h r0 k = traj h r0 (2 * k + 1) := by
  obtain ⟨a, b, hab, hbn, heq⟩ :=
    traj_collision h hwf r0 h0 (fun k _ => hall k)
  set d := b - a with hd
  have hd1 : 1 ≤ d := by omega
  have hper : traj h r0 (a + d) = traj h r0 a := by
    rw [show a + d = b by omega]
    exact heq.symm
  have hk1 : a + 1 ≤ (a + 1) * d := Nat.le_mul_of_pos_right (a + 1) (by omega)
  refine ⟨(a + 1) * d - 1, ?_, ?_⟩
  · have hbound : (a + 1) * d ≤ h.n * h.n := Nat.mul_le_mul (by omega) (by omega)
    omega
  · have hka : a ≤ (a + 1) * d - 1 := by omega
    have h2k : 2 * ((a + 1) * d - 1) + 1 = ((a + 1) * d - 1) + (a + 1) * d := by omega
    rw [h2k]
    exact (traj_add_mul_period h r0 a d hper (a + 1) _ hka).symm

/-- The loop returns a value as soon as a stop condition lies within the
fuel. -/
theorem printLoop_total (h : LHeap) (r0 : Ref) :
    ∀ f k acc, (∃ m, m < f ∧ stopAt h r0 (k + m)) →
      ∃ out, printLoop h f (traj h r0 (2 * k)) (traj h r0 k) acc = some out := by
  intro f
  induction f with
  | zero =>
    rintro k acc ⟨m, hm, _⟩
    omega
  | succ f ih =>
    rintro k acc ⟨m, hm, hstop⟩
    cases h2k : traj h r0 (2 * k) with
    | nl => exact ⟨_, printLoop_at_nl h f _ acc⟩
    | atom s => exact ⟨_, printLoop_at_atom h f s _ acc⟩
    | pr i =>
      have h21 : traj h r0 (2 * k + 1) = h.cdrI i := by
        rw [traj_succ, h2k]
        rfl
      cases hc : h.cdrI i with
      | nl => exact ⟨_, printLoop_pr_nl h f i _ acc hc⟩
      | atom s => exact ⟨_, printLoop_pr_atom h f i s _ acc hc⟩
      | pr j =>
        by_cases hs : traj h r0 k = Ref.pr j
        · exact ⟨_, printLoop_pr_meet h f i j _ acc hc hs⟩
        · rw [printLoop_pr_step h f i j _ acc hc hs]
          have hnostop : ¬ stopAt h r0 k := by
            intro hst
            rcases hst with hst | hst | hst
            · rw [h2k] at hst
              simp [Ref.isPr] at hst
            · rw [h21, hc] at hst
              simp [Ref.isPr] at hst
            · rw [h21, hc] at hst
              exact hs hst
          have hm0 : m ≠ 0 := by
            rintro rfl
            exact hnostop (by simpa using hstop)
          have hnext : h.refCdr (Ref.pr j) = traj h r0 (2 * (k + 1)) := by
            have : 2 * (k + 1) = (2 * k + 1) + 1 := by omega
            rw [this, traj_succ, h21, hc]
          have hslow : h.refCdr (traj h r0 k) = traj h r0 (k + 1) := (traj_succ h r0 k).symm
          rw [hnext, hslow]
          exact ih (k + 1) _ ⟨m - 1, by omega, by
            have : k + 1 + (m - 1) = k + m := by omega
            rw [this]
            exact hstop⟩

/-- On a fully cyclic trajectory the loop returns output ending in the
cycle marker. -/
theorem printLoop_cyc (h : LHeap) (r0 : Ref)
    (hall : ∀ k, (traj h r0 k).isPr = true) :
    ∀ f k acc, (∃ m, m < f ∧ traj h r0 (k + m) = traj h r0 (2 * (k + m) + 1)) →
      ∃ s, printLoop h f (traj h r0 (2 * k)) (traj h r0 k) acc = some (s ++ " ...)") := by
  intro f
  induction f with
  | zero =>
    rintro k acc ⟨m, hm, _⟩
    omega
  | succ f ih =>
    rintro k acc ⟨m, hm, hmeet⟩
    obtain ⟨i, h2k⟩ := (Ref.isPr_iff _).1 (hall (2 * k))
    have h21 : traj h r0 (2 * k + 1) = h.cdrI i := by
      rw [traj_succ, h2k]
      rfl
    obtain ⟨j, hc⟩ := (Ref.isPr_iff _).1 (hall (2 * k + 1))
    rw [h21] at hc
    rw [h2k]
    by_cases hs : traj h r0 k = Ref.pr j
    · exact ⟨_, printLoop_pr_meet h f i j _ acc hc hs⟩
    · rw [printLoop_pr_step h f i j _ acc hc hs]
      have hm0 : m ≠ 0 := by
        rintro rfl
        apply hs
        have hme : traj h r0 k = traj h r0 (2 * k + 1) := by simpa using hmeet
        rw [hme, h21, hc]
      have hnext : h.refCdr (Ref.pr j) = traj h r0 (2 * (k + 1)) := by
        have : 2 * (k + 1) = (2 * k + 1) + 1 := by omega
        rw [this, traj_succ, h21, hc]
      have hslow : h.refCdr (traj h r0 k) = traj h r0 (k + 1) := (traj_succ h r0 k).symm
      rw [hnext, hslow]
      exact ih (k + 1) _ ⟨m - 1, by omega, by
        have : k + 1 + (m - 1) = k + m := by omega
        rw [this]
        exact hmeet⟩

/-- When some trajectory cell is not a pair, a stop lies within n^2+1
iterations. -/
theorem stop_of_not_all (h : LHeap) (hwf : h.WF) (r0 : Ref)
    (h0 : ∀ i, r0 = Ref.pr i → i < h.n)
    (hnot : ¬ ∀ k, (traj h r0 k).isPr = true) :
    ∃ m, m < h.n * h.n + 1 ∧ stopAt h r0 m := by
  classical
  push_neg at hnot
  have hex : ∃ j, (traj h r0 j).isPr = false := by
    obtain ⟨j, hj⟩ := hnot
    exact ⟨j, by simpa using hj⟩
  set j0 := Nat.find hex with hj0
  have hj0f : (traj h r0 j0).isPr = false := Nat.find_spec hex
  have hbefore : ∀ k, k < j0 → (traj h r0 k).isPr = true := by
    intro k hk
    have := Nat.find_min hex hk
    simpa using this
  have hj0n : j0 ≤ h.n := by
    by_contra hgt
    push_neg at hgt
    have hall' : ∀ k, k ≤ h.n → (traj h r0 k).isPr = true := fun k hk =>
      hbefore k (by omega)
    obtain ⟨a, b, hab, hbn, heq⟩ := traj_collision h hwf r0 h0 hall'
    set d := b - a with hd
    have hper : traj h r0 (a + d) = traj h r0 a := by
      rw [show a + d = b by omega]
      exact heq.symm
    have hallm : ∀ m, (traj h r0 m).isPr = true := by
      intro m
      induction m using Nat.strong_induction_on with
      | _ m ihm =>
        by_cases hm : m < j0
        · exact hbefore m hm
        · have hmb : b ≤ m := by omega
          have hmd : traj h r0 ((m - d) + d) = traj h r0 (m - d) :=
            traj_add_period h r0 a d hper (m - d) (by omega)
          rw [show m = (m - d) + d by omega, hmd]
          exact ihm (m - d) (by omega)
    rw [hallm j0] at hj0f
    cases hj0f
  refine ⟨j0 / 2, by
    have hnn : h.n ≤ h.n * h.n := by
      rcases Nat.eq_zero_or_pos h.n with hz | hp
      · omega
      · exact Nat.le_mul_of_pos_left h.n hp
    omega, ?_⟩
  unfold stopAt
  rcases Nat.even_or_odd j0 with ⟨m, hm⟩ | ⟨m, hm⟩
  · left
    have : 2 * (j0 / 2) = j0 := by omega
    rw [this]
    exact hj0f
  · right; left
    have : 2 * (j0 / 2) + 1 = j0 := by omega
    rw [this]
    exact hj0f

/-- Claim C3: for every pair cell of a well-formed finite heap the write
printer's tortoise/hare loop terminates within n^2+1 iterations (bounded
output), and whenever the cdr spine is cyclic (every trajectory cell a
pair) the printed list ends with the cycle marker. -/
theorem c3_write_cyclic_terminates (h : LHeap) (i0 : Nat) (hwf : h.WF) (hi : i0 < h.n) :
    ∃ out, printCons h (h.n * h.n + 1) i0 = some out ∧
      ((∀ k, (traj h (h.cdrI i0) k).isPr = true) → ∃ s, out = s ++ " ...)") := by
  have h0 : ∀ i, h.cdrI i0 = Ref.pr i → i < h.n := by
    intro i hri
    exact hwf _ (cdrI_mem h i0 hi) i hri
  by_cases hall : ∀ k, (traj h (h.cdrI i0) k).isPr = true
  · obtain ⟨k, hk, hmeet⟩ := meet_exists h hwf (h.cdrI i0) h0 hall
    obtain ⟨s, hs⟩ := printLoop_cyc h (h.cdrI i0) hall (h.n * h.n + 1) 0
      ("(" ++ h.car i0) ⟨k, hk, by simpa using hmeet⟩
    refine ⟨s ++ " ...)", ?_, fun _ => ⟨s, rfl⟩⟩
    have h20 : traj h (h.cdrI i0) (2 * 0) = h.cdrI i0 := by simp [traj]
    have hz : traj h (h.cdrI i0) 0 = h.cdrI i0 := rfl
    rw [printCons, ← h20, ← hz]
    exact hs
  · obtain ⟨m, hm, hstop⟩ := stop_of_not_all h hwf (h.cdrI i0) h0 hall
    obtain ⟨out, hout⟩ := printLoop_total h (h.cdrI i0) (h.n * h.n + 1) 0
      ("(" ++ h.car i0) ⟨m, hm, by simpa using hstop⟩
    refine ⟨out, ?_, fun hc => absurd hc hall⟩
    have h20 : traj h (h.cdrI i0) (2 * 0) = h.cdrI i0 := by simp [traj]
    have hz : traj h (h.cdrI i0) 0 = h.cdrI i0 := rfl
    rw [printCons, ← h20, ← hz]
    exact hout

/-- Witness for C3: the one-cell cyclic list prints and ends in the cycle
marker; the concrete output is "(1 1 ...)". -/
theorem c3_witness :
    (∃ out, printCons cycHeap (cycHeap.n * cycHeap.n + 1) 0 = some out ∧
      ((∀ k, (traj cycHeap (cycHeap.cdrI 0) k).isPr = true) → ∃ s, out = s ++ " ...)")) ∧
    printCons cycHeap (cycHeap.n * cycHeap.n + 1) 0 = some "(1 1 ...)" := by
  constructor
  · exact c3_write_cyclic_terminates cycHeap 0
      (by
        intro p hp i hi
        simp only [cycHeap, List.mem_singleton] at hp
        subst hp
        simp only at hi
        cases hi
        decide)
      (by decide)
  · decide

end PicoScm.Writer

namespace PicoScm.Lexer

/-- Claim C5 (code bug): on the hex lexeme the code builds the string 0xNN…
and hands it to stoi with the default base 10, which consumes only the
leading 0; so #\x41 produces the character with code point 0, while the
intended base-16 reading of the suffix gives 0x41 = 65. -/
theorem c5_hex_char_bug :
    lexCharTok "#\\x41".data [] = some (0, []) ∧
    specHexCodePoint "#\\x41".data = some 65 ∧
    ((0 : Int) ≠ 65) := by
  refine ⟨by decide, by decide, by decide⟩

/-- Unfolding equation of lexStrAux on a non-empty stream. -/
theorem lexStrAux_cons (pr : Char → Bool) (p c : Char) (rest : List Char) :
    lexStrAux pr p (c :: rest) =
      if c = '"' then some ([], rest)
      else if c = '\\' then
        (match rest with
         | [] => none
         | e :: rest' =>
           if pr e then (lexStrAux pr e rest').map (fun q => ('\\' :: e :: q.1, q.2))
           else none)
      else if pr c then (lexStrAux pr c rest).map (fun q => (c :: q.1, q.2)) else none := by
  rw [lexStrAux.eq_def]

/-- Claim C7: a backslash escape is stored by the string lexer as the
two-character sequence backslash + escaped character (a non-printable
escaped or plain character aborts with an error, a closing quote ends the
string), and expansion happens only at display time, where backslash-a, -b,
-n, -r, -t become the control characters and any other escaped character
displays as itself. -/
theorem c7_string_escapes (pr : Char → Bool) (p c : Char) (rest : List Char) :
    (pr c = true →
      lexStrAux pr p ('\\' :: c :: rest) =
        (lexStrAux pr c rest).map (fun q => ('\\' :: c :: q.1, q.2))) ∧
    (pr c = false → lexStrAux pr p ('\\' :: c :: rest) = none) ∧
    (c ≠ '"' → c ≠ '\\' → pr c = true →
      lexStrAux pr p (c :: rest) = (lexStrAux pr c rest).map (fun q => (c :: q.1, q.2))) ∧
    (c ≠ '"' → c ≠ '\\' → pr c = false → lexStrAux pr p (c :: rest) = none) ∧
    (lexStrAux pr p ('"' :: rest) = some ([], rest)) ∧
    (displayStr ('\\' :: 'a' :: rest) = Char.ofNat 7 :: displayStr rest) ∧
    (displayStr ('\\' :: 'b' :: rest) = Char.ofNat 8 :: displayStr rest) ∧
    (displayStr ('\\' :: 'n' :: rest) = Char.ofNat 10 :: displayStr rest) ∧
    (displayStr ('\\' :: 'r' :: rest) = Char.ofNat 13 :: displayStr rest) ∧
    (displayStr ('\\' :: 't' :: rest) = Char.ofNat 9 :: displayStr rest) ∧
    (c ∉ (['a', 'b', 'n', 'r', 't'] : List Char) →
      displayStr ('\\' :: c :: rest) = c :: displayStr rest) ∧
    (c ≠ '\\' → displayStr (c :: rest) = c :: displayStr rest) := by
  refine ⟨?_, ?_, ?_, ?_, ?_, ?_, ?_, ?_, ?_, ?_, ?_, ?_⟩
  · intro h
    simp [lexStrAux_cons, h]
  · intro h
    simp [lexStrAux_cons, h]
  · intro hq hb h
    simp [lexStrAux_cons, hq, hb, h]
  · intro hq hb h
    simp [lexStrAux_cons, hq, hb, h]
  · simp [lexStrAux_cons]
  · simp [displayStr]
  · simp [displayStr]
  · simp [displayStr]
  · simp [displayStr]
  · simp [displayStr]
  · intro h
    simp only [List.mem_cons, List.not_mem_nil, or_false, not_or] at h
    obtain ⟨ha, hb, hn, hr, ht⟩ := h
    simp [displayStr, ha, hb, hn, hr, ht]
  · intro h
    cases rest with
    | nil => simp [displayStr]
    | cons d tl => simp [displayStr, h]

/-- Witness for C7 at concrete inputs (ASCII printability predicate). -/
theorem c7_witness :
    ((fun ch : Char => decide (32 ≤ ch.toNat ∧ ch.toNat ≤ 126)) 'n' = true ∧
      lexStrAux (fun ch : Char => decide (32 ≤ ch.toNat ∧ ch.toNat ≤ 126)) 'x'
        ('\\' :: 'n' :: '"' :: []) = some (['\\', 'n'], []) ∧
      ('q' ∉ (['a', 'b', 'n', 'r', 't'] : List Char)) ∧
      displayStr ('\\' :: 'q' :: []) = 'q' :: displayStr []) := by
  refine ⟨by decide, ?_, by decide, ?_⟩
  · exact ((c7_string_escapes (fun ch : Char => decide (32 ≤ ch.toNat ∧ ch.toNat ≤ 126))
      'x' 'n' ['"']).1 (by decide)).trans (by decide)
  · exact (c7_string_escapes (fun _ => true) 'x' 'q' []).2.2.2.2.2.2.2.2.2.2.1 (by decide)

/-- The character table never maps one name to two different code points
(the duplicated names nabla and the membership symbol repeat the same code
point). -/
theorem stab_functional : ∀ p ∈ stab, ∀ q ∈ stab, p.1 = q.1 → p.2 = q.2 := by decide

/-- Every name in the character table has at least 4 characters. -/
theorem stab_name_length : ∀ p ∈ stab, 4 ≤ p.1.length := by decide

/-- First-match lookup in a functional association list finds the stored
code point. -/
theorem findEntry (l : List (String × Int)) (nm : String) (c : Int)
    (hmem : (nm, c) ∈ l) (hfun : ∀ p ∈ l, ∀ q ∈ l, p.1 = q.1 → p.2 = q.2) :
    ∃ p, l.find? (fun p => p.1.data == nm.data) = some p ∧ p.2 = c := by
  induction l with
  | nil => cases hmem
  | cons a rest ih =>
    by_cases ha : a.1.data = nm.data
    · refine ⟨a, ?_, ?_⟩
      · simp [List.find?_cons, ha]
      · have hnm : a.1 = nm := String.ext ha
        have := hfun a (List.mem_cons_self _ _) (nm, c) hmem hnm
        simpa using this
    · have hmem' : (nm, c) ∈ rest := by
        rcases List.mem_cons.1 hmem with h | h
        · exact absurd (congrArg (fun q => (Prod.fst q).data) h.symm) ha
        · exact h
      obtain ⟨p, hp, hpc⟩ := ih hmem'
        (fun p hp q hq => hfun p (List.mem_cons_of_mem _ hp) q (List.mem_cons_of_mem _ hq))
      refine ⟨p, ?_, hpc⟩
      simpa [List.find?_cons, ha] using hp

/-- Claim C8 (amended): the name lookup lowercases the lexeme before the
case-sensitive table scan, so it is case-insensitive for every entry whose
stored name is itself all lowercase and whose third character is not x (the
hex branch intercepts lexemes with literal third character x, and entries
with uppercase letters in their stored names are shadowed by their lowercase
counterparts): any case variant of such an entry's name yields that entry's
code point. -/
theorem c8_amended (nm : String) (cp : Int) (v inp : List Char)
    (hmem : (nm, cp) ∈ stab)
    (hlower : lowerList nm.data = nm.data)
    (hx : nm.data.getD 2 (Char.ofNat 0) ≠ 'x')
    (hv : lowerList v = nm.data) :
    lexCharTok v inp = some (cp, inp) := by
  have hlen : v.length = nm.data.length := by
    simpa [lowerList] using congrArg List.length hv
  have hlen4 : 4 ≤ nm.data.length := stab_name_length (nm, cp) hmem
  have h2lt : 2 < v.length := by omega
  have hmap : nm.data.getD 2 (Char.ofNat 0) = toLowerCh (v.getD 2 (Char.ofNat 0)) := by
    rw [← hv]
    simp only [lowerList, List.getD_eq_getElem?_getD]
    rw [List.getElem?_eq_getElem (by simpa using h2lt), List.getElem?_eq_getElem h2lt]
    simp
  have hvx : (v.getD 2 (Char.ofNat 0) == 'x') = false := by
    rw [beq_eq_false_iff_ne]
    intro hEq
    apply hx
    rw [hmap, hEq]
    decide
  have hne2 : (v.length == 2) = false := by
    rw [beq_eq_false_iff_ne]
    omega
  have hne3 : (v.length == 3) = false := by
    rw [beq_eq_false_iff_ne]
    omega
  unfold lexCharTok
  rw [hne2, hne3, hvx]
  simp only [Bool.false_and, Bool.and_false, Bool.false_eq_true, if_false]
  rw [hv]
  obtain ⟨p, hfind, hp2⟩ := findEntry stab nm cp hmem stab_functional
  rw [hfind]
  simp [hp2]

/-- Witness for C8: the case variant SPACE of the lowercase entry finds the
space character. -/
theorem c8_witness : lexCharTok "#\\SPACE".data [] = some (32, []) :=
  c8_amended "#\\space" 32 "#\\SPACE".data [] (by decide) (by decide) (by decide)
    (by decide)

/-- Claim C8 (counterexample): the table entry mapping the uppercase name AE
to a capital a-umlaut (code 196) is unreachable — its own name lowercases to
the earlier lowercase entry, so lex_char yields the small a-umlaut 228. -/
theorem c8_counterexample :
    ("#\\AE", (196 : Int)) ∈ stab ∧
    lexCharTok "#\\AE".data [] = some (228, []) ∧
    ((228 : Int) ≠ 196) :=
  ⟨by decide, by decide, by decide⟩

end PicoScm.Lexer

namespace PicoScm.Parser

/-- One-step unfolding of readF at positive fuel. -/
theorem readF_unfold (fuel : Nat) (toks : List Tok) (st : PState) :
    readF (fuel + 1) toks st =
      (match getTok toks st with
       | (.comment, toks1, st1) => readF fuel toks1 st1
       | (.btrue, toks1, st1) => .ok (.bool true, toks1, st1)
       | (.bfalse, toks1, st1) => .ok (.bool false, toks1, st1)
       | (.chr c, toks1, st1) => .ok (.char c, toks1, st1)
       | (.quote, toks1, st1) => do
         let (c, toks2, st2) ← readF fuel toks1 st1
         let (l, st3) := st2.list2 (.sym "quote") c
         .ok (l, toks2, st3)
       | (.quasiquote, toks1, st1) => do
         let (c, toks2, st2) ← readF fuel toks1 st1
         let (l, st3) := st2.list2 (.sym "quasiquote") c
         .ok (l, toks2, st3)
       | (.unquote, toks1, st1) => do
         let (c, toks2, st2) ← readF fuel toks1 st1
         let (l, st3) := st2.list2 (.sym "unquote") c
         .ok (l, toks2, st3)
       | (.unquotesplice, toks1, st1) => do
         let (c, toks2, st2) ← readF fuel toks1 st1
         let (l, st3) := st2.list2 (.sym "unquote-splicing") c
         .ok (l, toks2, st3)
       | (.number n, toks1, st1) => .ok (.num n, toks1, st1)
       | (.strT s, toks1, st1) => .ok (.str s, toks1, st1)
       | (.regexT s, toks1, st1) => .ok (.regex s, toks1, st1)
       | (.symT s, toks1, st1) => .ok (.sym s, toks1, st1)
       | (.vectorT, toks1, st1) => parseVecF fuel toks1 st1
       | (.obrace, toks1, st1) => parseListLoop fuel toks1 st1 .nil .nil
       | (.eofT, toks1, st1) => .ok (.char (-1), toks1, st1)
       | (.cbrace, _, _) => .error .invalidToken
       | (.dot, _, _) => .error .invalidToken
       | (.errT, _, _) => .error .invalidToken) := rfl

/-- One-step unfolding of parseListLoop at positive fuel. -/
theorem parseListLoop_unfold (fuel : Nat) (toks : List Tok) (st : PState)
    (list tail : Cell) :
    parseListLoop (fuel + 1) toks st list tail =
      (match getTok toks st with
       | (.comment, toks1, st1) => parseListLoop fuel toks1 st1 list tail
       | (.cbrace, toks1, st1) => .ok (list, toks1, st1)
       | (.dot, toks1, st1) => do
         let (cell, toks2, st2) ← readF fuel toks1 st1
         match getTok toks2 st2 with
         | (.cbrace, toks3, st3) => do
           let st4 ← st3.setCdrP tail cell
           .ok (list, toks3, st4)
         | _ => .error .listError
       | (.eofT, _, _) => .error .listError
       | (.errT, _, _) => .error .listError
       | (t, toks1, st1) => do
         let st2 := { st1 with pback := some t }
         let (cell, toks2, st3) ← readF fuel toks1 st2
         match tail with
         | .pr i => do
           let (nc, st4) := st3.consP cell .nil
           let st5 ← st4.setCdrP (.pr i) nc
           parseListLoop fuel toks2 st5 list nc
         | _ =>
           let (nc, st4) := st3.consP cell .nil
           let st5 := st4.addenv sExpr nc
           parseListLoop fuel toks2 st5 nc nc) := rfl

/-- One-step unfolding of parseVecF at positive fuel. -/
theorem parseVecF_unfold (fuel : Nat) (toks : List Tok) (st : PState) :
    parseVecF (fuel + 1) toks st =
      (let (v, st1) := st.allocVec
       match v with
       | .vec i =>
         (match getTok toks st1 with
          | (.obrace, toks1, st2) => parseVecLoop fuel toks1 st2 i
          | _ => .error .vectorError)
       | _ => .error .vectorError) := rfl

/-- One-step unfolding of parseVecLoop at positive fuel. -/
theorem parseVecLoop_unfold (fuel : Nat) (toks : List Tok) (st : PState) (i : Nat) :
    parseVecLoop (fuel + 1) toks st i =
      (match getTok toks st with
       | (.comment, toks1, st1) => parseVecLoop fuel toks1 st1 i
       | (.cbrace, toks1, st1) => .ok (.vec i, toks1, st1)
       | (.eofT, _, _) => .error .vectorError
       | (.errT, _, _) => .error .vectorError
       | (t, toks1, st1) => do
         let st2 := { st1 with pback := some t }
         let (cell, toks2, st3) ← readF fuel toks1 st2
         parseVecLoop fuel toks2 (st3.vecPush i cell) i) := rfl

theorem envAgrees_of_env_eq {st st' : PState}
    (he : st'.store.env = st.store.env) : envAgrees st st' :=
  fun s _ => congrFun he s

theorem envAgrees_trans {a b c : PState}
    (h1 : envAgrees a b) (h2 : envAgrees b c) : envAgrees a c :=
  fun s hs => (h2 s hs).trans (h1 s hs)

theorem getTok_env (toks : List Tok) (st : PState) :
    (getTok toks st).2.2.store.env = st.store.env := by
  obtain ⟨store, pback⟩ := st
  cases pback <;> cases toks <;> rfl

theorem getTok_env_eq {toks : List Tok} {st : PState} {t : Tok}
    {toks1 : List Tok} {st1 : PState}
    (hgt : getTok toks st = (t, toks1, st1)) : st1.store.env = st.store.env := by
  have h := getTok_env toks st
  rw [hgt] at h
  exact h

theorem setCdr_env {st : Store} {c v : Cell} {st' : Store}
    (h : st.setCdr c v = .ok st') : st'.env = st.env := by
  unfold Store.setCdr at h
  cases c <;> try exact Except.noConfusion h
  case pr i =>
    have h2 : (match st.heap.get? i with
      | some p =>
        (Except.ok { st with heap := st.heap.set i (p.1, v) } : Except Err Store)
      | none => Except.error Err.outOfRange) = Except.ok st' := h
    cases hg : st.heap.get? i with
    | some p =>
      rw [hg] at h2
      cases h2
      rfl
    | none =>
      rw [hg] at h2
      exact Except.noConfusion h2

theorem setCdrP_env {st : PState} {c v : Cell} {st' : PState}
    (h : st.setCdrP c v = .ok st') : st'.store.env = st.store.env := by
  unfold PState.setCdrP at h
  cases hs : st.store.setCdr c v with
  | ok s2 =>
    rw [hs] at h
    cases h
    exact setCdr_env hs
  | error e =>
    rw [hs] at h
    exact Except.noConfusion h

theorem addenv_env_other (st : PState) (v : Cell) (s : String) (hs : s ≠ sExpr) :
    (st.addenv sExpr v).store.env s = st.store.env s := by
  simp [PState.addenv, hs]

theorem envAgrees_addenv (st : PState) (v : Cell) :
    envAgrees st (st.addenv sExpr v) :=
  fun s hs => addenv_env_other st v s hs

/-- The quote-family branch of readF preserves non-sentinel bindings. -/
theorem readF_quote_env (fuel : Nat) (toks1 : List Tok) (st1 : PState) (sym : String)
    (out : Cell × List Tok × PState)
    (ihR : ∀ toks st out, readF fuel toks st = .ok out → envAgrees st out.2.2)
    (h : (do
      let (c, toks2, st2) ← readF fuel toks1 st1
      let (l, st3) := st2.list2 (Cell.sym sym) c
      Except.ok (l, toks2, st3)) = Except.ok out) :
    envAgrees st1 out.2.2 := by
  cases hr : readF fuel toks1 st1 with
  | error e =>
    rw [hr] at h
    exact Except.noConfusion h
  | ok trip =>
    obtain ⟨c, toks2, st2⟩ := trip
    rw [hr] at h
    have h2 : (match st2.list2 (Cell.sym sym) c with
      | (l, st3) => (Except.ok (l, toks2, st3) : Except PErr _)) = Except.ok out := h
    rcases hl : st2.list2 (Cell.sym sym) c with ⟨l, st3⟩
    rw [hl] at h2
    have h3 : (Except.ok (l, toks2, st3) : Except PErr (Cell × List Tok × PState)) =
        Except.ok out := h2
    injection h3 with h4
    subst h4
    have hB : st3.store.env = st2.store.env :=
      (congrArg (fun p => p.2.store.env) hl).symm
    exact envAgrees_trans (ihR _ _ _ hr) (envAgrees_of_env_eq hB)

/-- The first-element case of parseListLoop's default branch (tail not a
pair): the fresh cons is rooted under the sentinel, all other bindings are
preserved. -/
theorem parseListLoop_nonpair_env (fuel : Nat) (toks2 : List Tok) (st2 st3 : PState)
    (cell : Cell) (out : Cell × List Tok × PState)
    (ihL : ∀ toks st list tail out,
      parseListLoop fuel toks st list tail = .ok out → envAgrees st out.2.2)
    (h : (match st3.consP cell Cell.nil with
      | (nc, st4) =>
        parseListLoop fuel toks2 (st4.addenv sExpr nc) nc nc) = Except.ok out)
    (hA : envAgrees st2 st3) : envAgrees st2 out.2.2 := by
  rcases hcp : st3.consP cell Cell.nil with ⟨nc, st4⟩
  rw [hcp] at h
  have h3 : parseListLoop fuel toks2 (st4.addenv sExpr nc) nc nc = Except.ok out := h
  have hB : st4.store.env = st3.store.env :=
    (congrArg (fun p => p.2.store.env) hcp).symm
  exact envAgrees_trans hA
    (envAgrees_trans (envAgrees_of_env_eq hB)
      (envAgrees_trans (envAgrees_addenv st4 nc) (ihL _ _ _ _ _ h3)))

/-- The default-token branch of parseListLoop preserves non-sentinel
bindings. -/
theorem parseListLoop_default_env (fuel : Nat) (toks1 : List Tok) (st2 : PState)
    (list tail : Cell) (out : Cell × List Tok × PState)
    (ihR : ∀ toks st out, readF fuel toks st = .ok out → envAgrees st out.2.2)
    (ihL : ∀ toks st list tail out,
      parseListLoop fuel toks st list tail = .ok out → envAgrees st out.2.2)
    (h : (do
      let (cell, toks2, st3) ← readF fuel toks1 st2
      match tail with
      | Cell.pr i => do
        let (nc, st4) := st3.consP cell .nil
        let st5 ← st4.setCdrP (.pr i) nc
        parseListLoop fuel toks2 st5 list nc
      | _ =>
        let (nc, st4) := st3.consP cell .nil
        let st5 := st4.addenv sExpr nc
        parseListLoop fuel toks2 st5 nc nc) = Except.ok out) :
    envAgrees st2 out.2.2 := by
  cases hr : readF fuel toks1 st2 with
  | error e =>
    rw [hr] at h
    exact Except.noConfusion h
  | ok trip =>
    obtain ⟨cell, toks2, st3⟩ := trip
    rw [hr] at h
    have hA : envAgrees st2 st3 := ihR _ _ _ hr
    cases tail with
    | pr i =>
      have h2 : (match st3.consP cell Cell.nil with
        | (nc, st4) => (do
            let st5 ← st4.setCdrP (Cell.pr i) nc
            parseListLoop fuel toks2 st5 list nc : Except PErr _)) = Except.ok out := h
      rcases hcp : st3.consP cell Cell.nil with ⟨nc, st4⟩
      rw [hcp] at h2
      have h2' : (do
        let st5 ← st4.setCdrP (Cell.pr i) nc
        parseListLoop fuel toks2 st5 list nc : Except PErr _) = Except.ok out := h2
      cases hsc : st4.setCdrP (Cell.pr i) nc with
      | error e =>
        rw [hsc] at h2'
        exact Except.noConfusion h2'
      | ok st5 =>
        rw [hsc] at h2'
        have h3 : parseListLoop fuel toks2 st5 list nc = Except.ok out := h2'
        have hB : st4.store.env = st3.store.env :=
          (congrArg (fun p => p.2.store.env) hcp).symm
        have hC : st5.store.env = st4.store.env := setCdrP_env hsc
        exact envAgrees_trans hA
          (envAgrees_trans (envAgrees_of_env_eq (hC.trans hB)) (ihL _ _ _ _ _ h3))
    | none => exact parseListLoop_nonpair_env fuel toks2 st2 st3 cell out ihL h hA
    | nil => exact parseListLoop_nonpair_env fuel toks2 st2 st3 cell out ihL h hA
    | bool b => exact parseListLoop_nonpair_env fuel toks2 st2 st3 cell out ihL h hA
    | char c0 => exact parseListLoop_nonpair_env fuel toks2 st2 st3 cell out ihL h hA
    | num n => exact parseListLoop_nonpair_env fuel toks2 st2 st3 cell out ihL h hA
    | str s => exact parseListLoop_nonpair_env fuel toks2 st2 st3 cell out ihL h hA
    | regex s => exact parseListLoop_nonpair_env fuel toks2 st2 st3 cell out ihL h hA
    | sym s => exact parseListLoop_nonpair_env fuel toks2 st2 st3 cell out ihL h hA
    | vec i => exact parseListLoop_nonpair_env fuel toks2 st2 st3 cell out ihL h hA

/-- The default-token branch of parseVecLoop preserves non-sentinel
bindings. -/
theorem parseVecLoop_default_env (fuel : Nat) (toks1 : List Tok) (st2 : PState)
    (i : Nat) (out : Cell × List Tok × PState)
    (ihR : ∀ toks st out, readF fuel toks st = .ok out → envAgrees st out.2.2)
    (ihW : ∀ toks st i out, parseVecLoop fuel toks st i = .ok out → envAgrees st out.2.2)
    (h : (do
      let (cell, toks2, st3) ← readF fuel toks1 st2
      parseVecLoop fuel toks2 (st3.vecPush i cell) i) = Except.ok out) :
    envAgrees st2 out.2.2 := by
  cases hr : readF fuel toks1 st2 with
  | error e =>
    rw [hr] at h
    exact Except.noConfusion h
  | ok trip =>
    obtain ⟨cell, toks2, st3⟩ := trip
    rw [hr] at h
    have h2 : parseVecLoop fuel toks2 (st3.vecPush i cell) i = Except.ok out := h
    have hB : (st3.vecPush i cell).store.env = st3.store.env := rfl
    exact envAgrees_trans (ihR _ _ _ hr)
      (envAgrees_trans (envAgrees_of_env_eq hB) (ihW _ _ _ _ h2))

/-- Reading and list/vector parsing change no environment binding other
than the sentinel slot. -/
theorem parser_env_preserved (fuel : Nat) :
    (∀ toks st out, readF fuel toks st = .ok out → envAgrees st out.2.2) ∧
    (∀ toks st list tail out,
      parseListLoop fuel toks st list tail = .ok out → envAgrees st out.2.2) ∧
    (∀ toks st out, parseVecF fuel toks st = .ok out → envAgrees st out.2.2) ∧
    (∀ toks st i out, parseVecLoop fuel toks st i = .ok out → envAgrees st out.2.2) := by
  induction fuel with
  | zero =>
    exact ⟨fun toks st out h => Except.noConfusion h,
           fun toks st list tail out h => Except.noConfusion h,
           fun toks st out h => Except.noConfusion h,
           fun toks st i out h => Except.noConfusion h⟩
  | succ fuel ih =>
    obtain ⟨ihR, ihL, ihV, ihW⟩ := ih
    refine ⟨?_, ?_, ?_, ?_⟩
    · -- readF
      intro toks st out h
      rw [readF_unfold] at h
      rcases hgt : getTok toks st with ⟨t, toks1, st1⟩
      rw [hgt] at h
      have hst1 : envAgrees st st1 := envAgrees_of_env_eq (getTok_env_eq hgt)
      cases t with
      | comment =>
        have h2 : readF fuel toks1 st1 = Except.ok out := h
        exact envAgrees_trans hst1 (ihR _ _ _ h2)
      | btrue =>
        have h2 : (Except.ok (Cell.bool true, toks1, st1) :
            Except PErr (Cell × List Tok × PState)) = Except.ok out := h
        injection h2 with h3
        subst h3
        exact hst1
      | bfalse =>
        have h2 : (Except.ok (Cell.bool false, toks1, st1) :
            Except PErr (Cell × List Tok × PState)) = Except.ok out := h
        injection h2 with h3
        subst h3
        exact hst1
      | chr c =>
        have h2 : (Except.ok (Cell.char c, toks1, st1) :
            Except PErr (Cell × List Tok × PState)) = Except.ok out := h
        injection h2 with h3
        subst h3
        exact hst1
      | quote => exact envAgrees_trans hst1 (readF_quote_env fuel toks1 st1 "quote" out ihR h)
      | quasiquote =>
        exact envAgrees_trans hst1 (readF_quote_env fuel toks1 st1 "quasiquote" out ihR h)
      | unquote =>
        exact envAgrees_trans hst1 (readF_quote_env fuel toks1 st1 "unquote" out ihR h)
      | unquotesplice =>
        exact envAgrees_trans hst1
          (readF_quote_env fuel toks1 st1 "unquote-splicing" out ihR h)
      | number n =>
        have h2 : (Except.ok (Cell.num n, toks1, st1) :
            Except PErr (Cell × List Tok × PState)) = Except.ok out := h
        injection h2 with h3
        subst h3
        exact hst1
      | strT s =>
        have h2 : (Except.ok (Cell.str s, toks1, st1) :
            Except PErr (Cell × List Tok × PState)) = Except.ok out := h
        injection h2 with h3
        subst h3
        exact hst1
      | regexT s =>
        have h2 : (Except.ok (Cell.regex s, toks1, st1) :
            Except PErr (Cell × List Tok × PState)) = Except.ok out := h
        injection h2 with h3
        subst h3
        exact hst1
      | symT s =>
        have h2 : (Except.ok (Cell.sym s, toks1, st1) :
            Except PErr (Cell × List Tok × PState)) = Except.ok out := h
        injection h2 with h3
        subst h3
        exact hst1
      | vectorT =>
        have h2 : parseVecF fuel toks1 st1 = Except.ok out := h
        exact envAgrees_trans hst1 (ihV _ _ _ h2)
      | obrace =>
        have h2 : parseListLoop fuel toks1 st1 Cell.nil Cell.nil = Except.ok out := h
        exact envAgrees_trans hst1 (ihL _ _ _ _ _ h2)
      | eofT =>
        have h2 : (Except.ok (Cell.char (-1), toks1, st1) :
            Except PErr (Cell × List Tok × PState)) = Except.ok out := h
        injection h2 with h3
        subst h3
        exact hst1
      | cbrace =>
        exact Except.noConfusion (show (Except.error PErr.invalidToken :
          Except PErr (Cell × List Tok × PState)) = Except.ok out from h)
      | dot =>
        exact Except.noConfusion (show (Except.error PErr.invalidToken :
          Except PErr (Cell × List Tok × PState)) = Except.ok out from h)
      | errT =>
        exact Except.noConfusion (show (Except.error PErr.invalidToken :
          Except PErr (Cell × List Tok × PState)) = Except.ok out from h)
    · -- parseListLoop
      intro toks st list tail out h
      rw [parseListLoop_unfold] at h
      rcases hgt : getTok toks st with ⟨t, toks1, st1⟩
      rw [hgt] at h
      have hst1 : envAgrees st st1 := envAgrees_of_env_eq (getTok_env_eq hgt)
      cases t with
      | comment =>
        have h2 : parseListLoop fuel toks1 st1 list tail = Except.ok out := h
        exact envAgrees_trans hst1 (ihL _ _ _ _ _ h2)
      | cbrace =>
        have h2 : (Except.ok (list, toks1, st1) :
            Except PErr (Cell × List Tok × PState)) = Except.ok out := h
        injection h2 with h3
        subst h3
        exact hst1
      | dot =>
        have h2 : (do
          let (cell, toks2, st2) ← readF fuel toks1 st1
          match getTok toks2 st2 with
          | (.cbrace, toks3, st3) => do
            let st4 ← st3.setCdrP tail cell
            Except.ok (list, toks3, st4)
          | _ => Except.error PErr.listError) = Except.ok out := h
        cases hr : readF fuel toks1 st1 with
        | error e =>
          rw [hr] at h2
          exact Except.noConfusion h2
        | ok trip =>
          obtain ⟨cell, toks2, st2⟩ := trip
          rw [hr] at h2
          have hst2 : envAgrees st1 st2 := ihR _ _ _ hr
          have h3 : (match getTok toks2 st2 with
            | (.cbrace, toks3, st3) => (do
                let st4 ← st3.setCdrP tail cell
                Except.ok (list, toks3, st4) : Except PErr _)
            | _ => Except.error PErr.listError) = Except.ok out := h2
          rcases hgt2 : getTok toks2 st2 with ⟨t2, toks3, st3⟩
          rw [hgt2] at h3
          have hst3 : envAgrees st2 st3 := envAgrees_of_env_eq (getTok_env_eq hgt2)
          cases t2 <;> try exact Except.noConfusion (show (Except.error PErr.listError :
            Except PErr (Cell × List Tok × PState)) = Except.ok out from h3)
          case cbrace =>
            have h4 : (do
              let st4 ← st3.setCdrP tail cell
              Except.ok (list, toks3, st4) : Except PErr _) = Except.ok out := h3
            cases hsc : st3.setCdrP tail cell with
            | error e =>
              rw [hsc] at h4
              exact Except.noConfusion h4
            | ok st4 =>
              rw [hsc] at h4
              have h5 : (Except.ok (list, toks3, st4) :
                  Except PErr (Cell × List Tok × PState)) = Except.ok out := h4
              injection h5 with h6
              subst h6
              exact envAgrees_trans hst1 (envAgrees_trans hst2
                (envAgrees_trans hst3 (envAgrees_of_env_eq (setCdrP_env hsc))))
      | eofT =>
        exact Except.noConfusion (show (Except.error PErr.listError :
          Except PErr (Cell × List Tok × PState)) = Except.ok out from h)
      | errT =>
        exact Except.noConfusion (show (Except.error PErr.listError :
          Except PErr (Cell × List Tok × PState)) = Except.ok out from h)
      | btrue =>
        have hd := parseListLoop_default_env fuel toks1 _ list tail out ihR ihL h
        exact envAgrees_trans hst1 (envAgrees_trans (envAgrees_of_env_eq rfl) hd)
      | bfalse =>
        have hd := parseListLoop_default_env fuel toks1 _ list tail out ihR ihL h
        exact envAgrees_trans hst1 (envAgrees_trans (envAgrees_of_env_eq rfl) hd)
      | chr c =>
        have hd := parseListLoop_default_env fuel toks1 _ list tail out ihR ihL h
        exact envAgrees_trans hst1 (envAgrees_trans (envAgrees_of_env_eq rfl) hd)
      | quote =>
        have hd := parseListLoop_default_env fuel toks1 _ list tail out ihR ihL h
        exact envAgrees_trans hst1 (envAgrees_trans (envAgrees_of_env_eq rfl) hd)
      | quasiquote =>
        have hd := parseListLoop_default_env fuel toks1 _ list tail out ihR ihL h
        exact envAgrees_trans hst1 (envAgrees_trans (envAgrees_of_env_eq rfl) hd)
      | unquote =>
        have hd := parseListLoop_default_env fuel toks1 _ list tail out ihR ihL h
        exact envAgrees_trans hst1 (envAgrees_trans (envAgrees_of_env_eq rfl) hd)
      | unquotesplice =>
        have hd := parseListLoop_default_env fuel toks1 _ list tail out ihR ihL h
        exact envAgrees_trans hst1 (envAgrees_trans (envAgrees_of_env_eq rfl) hd)
      | number n =>
        have hd := parseListLoop_default_env fuel toks1 _ list tail out ihR ihL h
        exact envAgrees_trans hst1 (envAgrees_trans (envAgrees_of_env_eq rfl) hd)
      | strT s =>
        have hd := parseListLoop_default_env fuel toks1 _ list tail out ihR ihL h
        exact envAgrees_trans hst1 (envAgrees_trans (envAgrees_of_env_eq rfl) hd)
      | regexT s =>
        have hd := parseListLoop_default_env fuel toks1 _ list tail out ihR ihL h
        exact envAgrees_trans hst1 (envAgrees_trans (envAgrees_of_env_eq rfl) hd)
      | symT s =>
        have hd := parseListLoop_default_env fuel toks1 _ list tail out ihR ihL h
        exact envAgrees_trans hst1 (envAgrees_trans (envAgrees_of_env_eq rfl) hd)
      | vectorT =>
        have hd := parseListLoop_default_env fuel toks1 _ list tail out ihR ihL h
        exact envAgrees_trans hst1 (envAgrees_trans (envAgrees_of_env_eq rfl) hd)
      | obrace =>
        have hd := parseListLoop_default_env fuel toks1 _ list tail out ihR ihL h
        exact envAgrees_trans hst1 (envAgrees_trans (envAgrees_of_env_eq rfl) hd)
    · -- parseVecF
      intro toks st out h
      rw [parseVecF_unfold] at h
      rcases hav : st.allocVec with ⟨v, st1⟩
      rw [hav] at h
      have hA : st1.store.env = st.store.env :=
        (congrArg (fun p => p.2.store.env) hav).symm
      cases v <;> try exact Except.noConfusion (show (Except.error PErr.vectorError :
        Except PErr (Cell × List Tok × PState)) = Except.ok out from h)
      case vec i =>
        have h2 : (match getTok toks st1 with
          | (.obrace, toks1, st2) => parseVecLoop fuel toks1 st2 i
          | _ => Except.error PErr.vectorError) = Except.ok out := h
        rcases hgt : getTok toks st1 with ⟨t, toks1, st2⟩
        rw [hgt] at h2
        cases t <;> try exact Except.noConfusion (show (Except.error PErr.vectorError :
          Except PErr (Cell × List Tok × PState)) = Except.ok out from h2)
        case obrace =>
          have h3 : parseVecLoop fuel toks1 st2 i = Except.ok out := h2
          exact envAgrees_trans (envAgrees_of_env_eq hA)
            (envAgrees_trans (envAgrees_of_env_eq (getTok_env_eq hgt)) (ihW _ _ _ _ h3))
    · -- parseVecLoop
      intro toks st i out h
      rw [parseVecLoop_unfold] at h
      rcases hgt : getTok toks st with ⟨t, toks1, st1⟩
      rw [hgt] at h
      have hst1 : envAgrees st st1 := envAgrees_of_env_eq (getTok_env_eq hgt)
      cases t with
      | comment =>
        have h2 : parseVecLoop fuel toks1 st1 i = Except.ok out := h
        exact envAgrees_trans hst1 (ihW _ _ _ _ h2)
      | cbrace =>
        have h2 : (Except.ok (Cell.vec i, toks1, st1) :
            Except PErr (Cell × List Tok × PState)) = Except.ok out := h
        injection h2 with h3
        subst h3
        exact hst1
      | eofT =>
        exact Except.noConfusion (show (Except.error PErr.vectorError :
          Except PErr (Cell × List Tok × PState)) = Except.ok out from h)
      | errT =>
        exact Except.noConfusion (show (Except.error PErr.vectorError :
          Except PErr (Cell × List Tok × PState)) = Except.ok out from h)
      | btrue =>
        have hd := parseVecLoop_default_env fuel toks1 _ i out ihR ihW h
        exact envAgrees_trans hst1 (envAgrees_trans (envAgrees_of_env_eq rfl) hd)
      | bfalse =>
        have hd := parseVecLoop_default_env fuel toks1 _ i out ihR ihW h
        exact envAgrees_trans hst1 (envAgrees_trans (envAgrees_of_env_eq rfl) hd)
      | chr c =>
        have hd := parseVecLoop_default_env fuel toks1 _ i out ihR ihW h
        exact envAgrees_trans hst1 (envAgrees_trans (envAgrees_of_env_eq rfl) hd)
      | quote =>
        have hd := parseVecLoop_default_env fuel toks1 _ i out ihR ihW h
        exact envAgrees_trans hst1 (envAgrees_trans (envAgrees_of_env_eq rfl) hd)
      | quasiquote =>
        have hd := parseVecLoop_default_env fuel toks1 _ i out ihR ihW h
        exact envAgrees_trans hst1 (envAgrees_trans (envAgrees_of_env_eq rfl) hd)
      | unquote =>
        have hd := parseVecLoop_default_env fuel toks1 _ i out ihR ihW h
        exact envAgrees_trans hst1 (envAgrees_trans (envAgrees_of_env_eq rfl) hd)
      | unquotesplice =>
        have hd := parseVecLoop_default_env fuel toks1 _ i out ihR ihW h
        exact envAgrees_trans hst1 (envAgrees_trans (envAgrees_of_env_eq rfl) hd)
      | number n =>
        have hd := parseVecLoop_default_env fuel toks1 _ i out ihR ihW h
        exact envAgrees_trans hst1 (envAgrees_trans (envAgrees_of_env_eq rfl) hd)
      | strT s =>
        have hd := parseVecLoop_default_env fuel toks1 _ i out ihR ihW h
        exact envAgrees_trans hst1 (envAgrees_trans (envAgrees_of_env_eq rfl) hd)
      | regexT s =>
        have hd := parseVecLoop_default_env fuel toks1 _ i out ihR ihW h
        exact envAgrees_trans hst1 (envAgrees_trans (envAgrees_of_env_eq rfl) hd)
      | symT s =>
        have hd := parseVecLoop_default_env fuel toks1 _ i out ihR ihW h
        exact envAgrees_trans hst1 (envAgrees_trans (envAgrees_of_env_eq rfl) hd)
      | vectorT =>
        have hd := parseVecLoop_default_env fuel toks1 _ i out ihR ihW h
        exact envAgrees_trans hst1 (envAgrees_trans (envAgrees_of_env_eq rfl) hd)
      | obrace =>
        have hd := parseVecLoop_default_env fuel toks1 _ i out ihR ihW h
        exact envAgrees_trans hst1 (envAgrees_trans (envAgrees_of_env_eq rfl) hd)
      | dot =>
        have hd := parseVecLoop_default_env fuel toks1 _ i out ihR ihW h
        exact envAgrees_trans hst1 (envAgrees_trans (envAgrees_of_env_eq rfl) hd)

/-- Claim C6 (counterexample): read of "(1)" succeeds, returning the list's
first cons, yet afterwards the designated root-environment slot still holds
that cons under the sentinel symbol — it is not cleared on successful
return (the initial state had the slot empty). -/
theorem c6_counterexample :
    (readF 9 c6toks c6st0).toOption.map (fun o => (o.1, o.2.2.store.env sExpr)) =
      some (Cell.pr 0, some (Cell.pr 0)) ∧
    c6st0.store.env sExpr = none := by
  exact ⟨by decide, rfl⟩

/-- Claim C6 (amended): while parse_list builds a top-level list, the first
cons of that list is registered in the designated root-environment slot
under the sentinel symbol, and bindings of the environment other than the
sentinel slot are unchanged by parsing; however the slot is not cleared
when read returns successfully — it still holds the first cons of the most
recently started list (concretely, after reading "(1)" from the empty
environment the slot holds the returned cons). -/
theorem c6_amended :
    (∀ fuel toks st out, readF fuel toks st = .ok out →
      ∀ s, s ≠ sExpr → out.2.2.store.env s = st.store.env s) ∧
    (readF 9 c6toks c6st0).toOption.map (fun o => (o.1, o.2.2.store.env sExpr)) =
      some (Cell.pr 0, some (Cell.pr 0)) := by
  constructor
  · intro fuel toks st out h
    exact (parser_env_preserved fuel).1 toks st out h
  · decide

/-- Witness for C6: a successful read of "(1)" leaves the ordinary binding
x ↦ 7 untouched. -/
theorem c6_witness :
    c6st1.store.env "x" = some (Cell.num (.int 7)) ∧
    ("x" ≠ sExpr) ∧
    ∃ out, readF 9 c6toks c6st1 = Except.ok out ∧
      out.2.2.store.env "x" = some (Cell.num (.int 7)) := by
  refine ⟨rfl, by decide, ?_⟩
  cases hok : readF 9 c6toks c6st1 with
  | error e =>
    have hko : (readF 9 c6toks c6st1).toOption.isSome = true := by decide
    rw [hok] at hko
    simp [Except.toOption] at hko
  | ok out =>
    refine ⟨out, rfl, ?_⟩
    have hpres := c6_amended.1 9 c6toks c6st1 out hok "x" (by decide)
    rw [hpres]
    decide

end PicoScm.Parser
